import Mathlib

/-!
Shallow embedding of the subtitle-translation core of `whisper-translator-cn`.

The repository ships three generations of the same program:
  * the root-level modules (`translate.py`, `subtitle.py`, `main.py`),
  * the `whisper_translator/` package (entry point of `setup.py`),
  * the partial `whisper_translator-cn/` package (`translate.py`, `core.py`).
Where the generations differ in behaviour, each variant is embedded
separately and named with a `_root`, `_wt` (whisper_translator) or `_cn`
(whisper_translator-cn) tag.

Text is modelled as `List Char` (`Str`).  Python string helpers
(`str.strip`, `str.split`, `in`, `str.find`, `int(...)`, `f"{n:02d}"`,
`str.isdigit`) are embedded below for ASCII text; network effects are
modelled by oracles: a gateway call is a function from the attempt (or
call) number to `Option Str`, where `none` stands for the exception path
(transient failure) and `some c` for a successful response body `c`.
-/

abbrev Str := List Char

/-- Whitespace as stripped by Python's `str.strip()` (ASCII fragment). -/
def pyWs (c : Char) : Bool :=
  c == ' ' || c == '\t' || c == '\n' || c == '\r' || c == '\x0b' || c == '\x0c'

/-- Python `s.strip()`: drop leading and trailing whitespace. -/
def pyStrip (s : Str) : Str :=
  ((s.dropWhile pyWs).reverse.dropWhile pyWs).reverse

/-- Python `s.strip(chars)` for a fixed character set: drop the set's
characters from both ends. -/
def pyStripSet (set : List Char) (s : Str) : Str :=
  ((s.dropWhile (set.contains ·)).reverse.dropWhile (set.contains ·)).reverse

/-- Whether `pat` is a leading segment of `s` (helper for substring tests). -/
def leadsWith : Str → Str → Bool
  | [], _ => true
  | _ :: _, [] => false
  | p :: ps, c :: cs => p == c && leadsWith ps cs

/-- Python `pat in s`: substring occurrence. -/
def strIn (pat : Str) : Str → Bool
  | [] => leadsWith pat []
  | c :: cs => leadsWith pat (c :: cs) || strIn pat cs

/-- Python `s.split(sep)` for a single-character separator. -/
def splitCh (sep : Char) : Str → List Str
  | [] => [[]]
  | c :: cs =>
    if c = sep then [] :: splitCh sep cs
    else
      match splitCh sep cs with
      | r :: rs => (c :: r) :: rs
      | [] => [[c]]

/-- First occurrence split, as in Python `s.split(sep, 1)` when the
separator occurs: returns the parts before and after the first `sep`. -/
def splitOnce (sep : Char) : Str → Option (Str × Str)
  | [] => none
  | c :: cs =>
    if c = sep then some ([], cs)
    else (splitOnce sep cs).map (fun p => (c :: p.1, p.2))

/-- Python `s.split(sep, 1)`. -/
def pySplit1 (sep : Char) (s : Str) : List Str :=
  match splitOnce sep s with
  | some (a, b) => [a, b]
  | none => [s]

/-- Fuel-driven worker for multi-character separators (Python `s.split(sep)`
with a non-empty `sep`); the fuel passed by `splitOnStr` always suffices. -/
def splitOnStrGo (sep : Str) : Nat → Str → Str → List Str
  | 0, acc, _ => [acc.reverse]
  | _ + 1, acc, [] => [acc.reverse]
  | fuel + 1, acc, c :: cs =>
    if leadsWith sep (c :: cs) then
      acc.reverse :: splitOnStrGo sep fuel [] ((c :: cs).drop sep.length)
    else
      splitOnStrGo sep fuel (c :: acc) cs

/-- Python `s.split(sep)` for a non-empty multi-character separator. -/
def splitOnStr (sep : Str) (s : Str) : List Str :=
  splitOnStrGo sep (s.length + 1) [] s

/-- Python `s.find(c)`: index of the first occurrence of character `c`. -/
def pyFindCh (c : Char) : Str → Option Nat
  | [] => none
  | x :: xs => if x = c then some 0 else (pyFindCh c xs).map (· + 1)

/-- Python `str.isdigit()` (ASCII fragment): non-empty and all digits. -/
def isDigitStr (s : Str) : Bool :=
  !s.isEmpty && s.all Char.isDigit

/-- Numeric value of a digit string (most significant digit first). -/
def digitsToNat (s : Str) : Nat :=
  s.foldl (fun a c => 10 * a + (c.toNat - 48)) 0

/-- Worker for `pyInt?`: an optional single sign, then a non-empty run of
digits. -/
def pyIntCore : Str → Option Int
  | [] => none
  | c :: r =>
    if c = '+' then (if isDigitStr r then some ((digitsToNat r : Nat) : Int) else none)
    else if c = '-' then (if isDigitStr r then some (-((digitsToNat r : Nat) : Int)) else none)
    else if isDigitStr (c :: r) then some ((digitsToNat (c :: r) : Nat) : Int) else none

/-- Python `int(s)` (ASCII fragment): optional surrounding whitespace, an
optional single sign, then a non-empty run of digits. -/
def pyInt? (s : Str) : Option Int := pyIntCore (pyStrip s)

/-- The decimal digit characters. -/
def digitChar : Nat → Char
  | 0 => '0' | 1 => '1' | 2 => '2' | 3 => '3' | 4 => '4'
  | 5 => '5' | 6 => '6' | 7 => '7' | 8 => '8' | _ => '9'

/-- Fuel-driven decimal printer (the fuel passed by `natDigits` suffices). -/
def natDigitsGo : Nat → Nat → Str
  | 0, _ => []
  | fuel + 1, n =>
    if n < 10 then [digitChar n]
    else natDigitsGo fuel (n / 10) ++ [digitChar (n % 10)]

/-- Decimal digits of a natural number, as produced by Python `str(n)`. -/
def natDigits (n : Nat) : Str := natDigitsGo (n + 1) n

/-- Decimal rendering of an integer, as produced by Python `str(n)`. -/
def intDigits (n : Int) : Str :=
  if n < 0 then '-' :: natDigits n.natAbs else natDigits n.toNat

/-- Left-pad with a character up to a target width. -/
def leftPad (w : Nat) (c : Char) (s : Str) : Str :=
  List.replicate (w - s.length) c ++ s

/-- Python `f"{n:0wd}"`: zero-filled fixed-width integer (zeros go after
the sign). -/
def pyFmtPadInt (w : Nat) (n : Int) : Str :=
  if n < 0 then '-' :: leftPad (w - 1) '0' (natDigits n.natAbs)
  else leftPad w '0' (natDigits n.toNat)

/-- Join a list of strings with a separator character between the items
(Python `sep.join(parts)`). -/
def joinWith (sep : Char) : List Str → Str
  | [] => []
  | [x] => x
  | x :: y :: rest => x ++ sep :: joinWith sep (y :: rest)

/-- Python `enumerate(xs, n)`. -/
def pyEnum (n : Nat) : List Str → List (Nat × Str)
  | [] => []
  | t :: ts => (n, t) :: pyEnum (n + 1) ts

/-- Sequential positional writes `result[i] = v`, as in the Python loops
that restore batch results to their original positions. -/
def scatter (base : List Str) (ps : List (Nat × Str)) : List Str :=
  ps.foldl (fun acc p => acc.set p.1 p.2) base

section Basics

example : pyStrip (" ab ".data) = "ab".data := by decide
example : splitCh ':' ("a:b:c".data) = ["a".data, "b".data, "c".data] := by decide
example : splitOnStr (" --> ".data) ("a --> b".data) = ["a".data, "b".data] := by decide
example : pyInt? ("25".data) = some 25 := by decide
example : pyFmtPadInt 2 (62 : Int) = "62".data := by decide
example : pyFmtPadInt 3 (5 : Int) = "005".data := by decide
example : strIn ("[tr:".data) ("[0:1][tr:zh]x".data) = true := by decide
example : natDigits 120 = "120".data := by decide

end Basics

/-!
Data model: `SubtitleEntry` from `subtitle.py` (all variants share the
shape).  The canonical time pattern is `^\d{2}:\d{2}:\d{2},\d{3}$`.
-/

structure SubtitleEntry where
  index : Nat
  start_time : Str
  end_time : Str
  source_text : Str
  target_text : Str
deriving DecidableEq, Repr

/-- The regex `TIME_PATTERN`: `^\d{2}:\d{2}:\d{2},\d{3}$`. -/
def validate_time_format : Str → Bool
  | [a, b, c, d, e, f, g, h, i, j, k, l] =>
    a.isDigit && b.isDigit && c == ':' && d.isDigit && e.isDigit && f == ':' &&
    g.isDigit && h.isDigit && i == ',' && j.isDigit && k.isDigit && l.isDigit
  | _ => false

/-- Constructor plus `__post_init__` of the root `subtitle.py`: validation
is skipped when either timestamp strips to empty; `none` models the raised
`ValueError`. -/
def mkEntryRoot (index : Nat) (start_time end_time source_text target_text : Str) :
    Option SubtitleEntry :=
  if (pyStrip start_time).isEmpty || (pyStrip end_time).isEmpty then
    some ⟨index, start_time, end_time, source_text, target_text⟩
  else if validate_time_format start_time && validate_time_format end_time then
    some ⟨index, start_time, end_time, source_text, target_text⟩
  else none

/-- The translation-invariant fields of an entry (everything except
`target_text`). -/
def frameOf (e : SubtitleEntry) : Nat × Str × Str × Str :=
  (e.index, e.start_time, e.end_time, e.source_text)

/-!
`translate.py`: retry loop and the single/batch translation calls.

`make_request` is shared verbatim (up to logging and the exception class)
by all three variants: `for attempt in range(max_retries)`, returning the
stripped response on success, sleeping `retry_delay * 2 ** attempt` after
a failed attempt that is not the last, and raising after the last one.
The gateway is the oracle `gw : Nat → Option Str` (argument = 0-based
attempt number, `some c` = response content `c`).  The result records the
outcome (`none` = exception raised, or `max_retries = 0` fell through the
loop), the number of gateway calls made, and the list of back-off delays
slept, in order.
-/

/-- One structural pass over the remaining attempts of `make_request`'s
loop; `attempt` is the absolute 0-based attempt number. -/
def mrLoop (gw : Nat → Option Str) (retry_delay : Nat) :
    Nat → Nat → Option Str × Nat × List Nat
  | _, 0 => (none, 0, [])
  | attempt, remaining + 1 =>
    match gw attempt with
    | some c => (some (pyStrip c), 1, [])
    | none =>
      if remaining = 0 then (none, 1, [])
      else
        let r := mrLoop gw retry_delay (attempt + 1) remaining
        (r.1, r.2.1 + 1, retry_delay * 2 ^ attempt :: r.2.2)

/-- `make_request(messages, config)` (root / wt / cn `translate.py`). -/
def make_request (gw : Nat → Option Str) (max_retries retry_delay : Nat) :
    Option Str × Nat × List Nat :=
  mrLoop gw retry_delay 0 max_retries

/-- Root `translate.py` `translate_single`, composed with `make_request`
down to the attempt level (for the retry-consumption claims): empty input
short-circuits, success is stripped again, any exception is swallowed into
`""`. -/
def translate_single_root_full (gw : Nat → Option Str) (max_retries retry_delay : Nat)
    (text : Str) : Str × Nat × List Nat :=
  if (pyStrip text).isEmpty then ([], 0, [])
  else
    let r := make_request gw max_retries retry_delay
    match r.1 with
    | some res => (pyStrip res, r.2.1, r.2.2)
    | none => ([], r.2.1, r.2.2)

/-- `translate_text` of `whisper_translator/translate.py` and
`translate_single` of `whisper_translator-cn/translate.py`, composed with
`make_request`: empty input short-circuits, failure raises
`TranslationError` (the `Except.error` case). -/
def translate_single_ex_full (gw : Nat → Option Str) (max_retries retry_delay : Nat)
    (text : Str) : Except Unit Str × Nat × List Nat :=
  if (pyStrip text).isEmpty then (Except.ok [], 0, [])
  else
    let r := make_request gw max_retries retry_delay
    match r.1 with
    | some res => (Except.ok (pyStrip res), r.2.1, r.2.2)
    | none => (Except.error (), r.2.1, r.2.2)

/-- Root `translate_single` at the outcome level: the oracle value is what
`make_request` returned (`none` = it raised after exhausting retries). -/
def translate_single_rootO (o : Option Str) (text : Str) : Str :=
  if (pyStrip text).isEmpty then []
  else
    match o with
    | some res => pyStrip res
    | none => []

/-- wt `translate_single`/cn `translate_single` at the outcome level:
failure after retries propagates as `TranslationError`. -/
def translate_single_exO (o : Option Str) (text : Str) : Except Unit Str :=
  if (pyStrip text).isEmpty then Except.ok []
  else
    match o with
    | some res => Except.ok (pyStrip res)
    | none => Except.error ()

/-!
Batch response parsing.  Every variant splits the response on `'\n'`,
strips each line, skips blank lines and applies the regex
`^\d+[.。、\s]*(.+)$` to drop a numbering mark; the captured group is
stripped, and a line that does not match is kept as is.
-/

/-- Character class `[.。、\s]` of the numbering-mark regex. -/
def numSepCh (c : Char) : Bool :=
  c == '.' || c == '。' || c == '、' || pyWs c

/-- Effect of `re.match(r'^\d+[.。、\s]*(.+)$', line)` followed by
`.group(1).strip()` (falling back to the line itself on no match).  With
greedy matching and backtracking: take the maximal digit run `D` and the
maximal separator run `S` after it; if characters remain they are the
group; otherwise backtracking leaves exactly the last character as the
group (possible only when the line has at least two characters). -/
def dropNumberMark (l : Str) : Str :=
  let d := (l.takeWhile Char.isDigit).length
  if d = 0 then l
  else
    let s := ((l.drop d).takeWhile numSepCh).length
    if d + s < l.length then pyStrip (l.drop (d + s))
    else if 2 ≤ l.length then pyStrip (l.drop (l.length - 1))
    else l

/-- The `translations` list built from a raw batch response. -/
def parseResponse (response : Str) : List Str :=
  (splitCh '\n' response).foldr
    (fun line acc =>
      let t := pyStrip line
      if t.isEmpty then acc else dropNumberMark t :: acc) []

/-- `valid_indices = [(i, text) for i, text in enumerate(texts) if text.strip()]`. -/
def valid_indices (texts : List Str) : List (Nat × Str) :=
  (pyEnum 0 texts).filter (fun p => !(pyStrip p.2).isEmpty)

/-- The numbered block `"1. <text>\n2. <text>…"` sent as the batch
request body (built from the kept texts only). -/
def formattedInput (texts : List Str) : Str :=
  joinWith '\n'
    (((pyEnum 0 ((valid_indices texts).map Prod.snd)).map
      (fun p => natDigits (p.1 + 1) ++ '.' :: ' ' :: p.2)))

/-- Result-count repair of the wt/cn `translate_batch`: pad a short result
with empty strings, truncate a long one. -/
def fixCount (translations : List Str) (want : Nat) : List Str :=
  if translations.length < want then
    translations ++ List.replicate (want - translations.length) []
  else translations.take want

/-- Root `translate.py` `translate_batch`, at the outcome level of its one
`make_request` call (`resp = none` models the exception path, which the
function's `except` turns into all-empty results).  The loop
`for i in range(valid_count): result[indices[i]] = translations[i]` with
`valid_count = min(len(translations), len(valid_texts))` is the scatter of
`indices.zip translations` (`zip` truncates at the same minimum). -/
def translate_batch_root (texts : List Str) (resp : Option Str) : List Str :=
  if texts.isEmpty then []
  else if (valid_indices texts).isEmpty then List.replicate texts.length []
  else
    match resp with
    | none => List.replicate texts.length []
    | some r =>
      scatter (List.replicate texts.length [])
        (((valid_indices texts).map Prod.fst).zip (parseResponse r))

/-- `translate_batch` of `whisper_translator/translate.py` and of
`whisper_translator-cn/translate.py` (identical up to logging), at the
outcome level: `resp` is the outcome of the one batch gateway call after
retries, and `single text` the outcome of the per-text gateway call made
by `translate_single` during the batch-to-single fallback. -/
def translate_batch_fb (texts : List Str) (resp : Option Str)
    (single : Str → Option Str) : List Str :=
  if texts.isEmpty then []
  else if (valid_indices texts).isEmpty then List.replicate texts.length []
  else
    match resp with
    | none =>
      scatter (List.replicate texts.length [])
        (((valid_indices texts).map Prod.fst).zip
          (((valid_indices texts).map Prod.snd).map
            (fun t =>
              match translate_single_exO (single t) t with
              | Except.ok tr => tr
              | Except.error _ => [])))
    | some r =>
      scatter (List.replicate texts.length [])
        (((valid_indices texts).map Prod.fst).zip
          (fixCount (parseResponse r) ((valid_indices texts).map Prod.snd).length))

/-- Specification-side description of batch alignment recovery, written
from the spec's words for the refinement claims: the i-th parsed line goes
to the i-th text that is non-blank, texts filtered out as blank get the
empty string without being sent, missing lines are padded with empty
strings at the tail, excess lines are discarded. -/
def alignSpec : List Str → List Str → List Str
  | [], _ => []
  | t :: ts, lines =>
    if (pyStrip t).isEmpty then [] :: alignSpec ts lines
    else
      match lines with
      | [] => [] :: alignSpec ts []
      | l :: ls => l :: alignSpec ts ls

section TranslateExamples

example : parseResponse ("1. 你好\n\n2、再见".data) = ["你好".data, "再见".data] := by decide
example : dropNumberMark ("12".data) = "2".data := by decide
example : dropNumberMark ("1.".data) = ".".data := by decide
example : dropNumberMark ("hello".data) = "hello".data := by decide
example :
    translate_batch_root [" ".data, "a".data, "b".data] (some ("x".data)) =
      ["".data, "x".data, "".data] := by decide
example :
    alignSpec [" ".data, "a".data, "b".data] ["x".data] =
      ["".data, "x".data, "".data] := by decide

end TranslateExamples

/-!
`subtitle.py`: text normalisation, the time codec, the writers and the
parsers.
-/

/-- Character class `[.。,，、\s]` of `NUMBER_PREFIX_PATTERN`. -/
def numMarkCh (c : Char) : Bool :=
  c == '.' || c == '。' || c == ',' || c == '，' || c == '、' || pyWs c

/-- Effect of `re.sub(r'^\d+[.。,，、\s]*', '', t)`: remove one leading
run of digits together with the following separator run (the pattern is
anchored, so at most one substitution happens). -/
def numMarkDrop (t : Str) : Str :=
  let d := (t.takeWhile Char.isDigit).length
  if d = 0 then t
  else
    let rest := t.drop d
    rest.drop ((rest.takeWhile numMarkCh).length)

/-- Module-level `clean_text` of the root `subtitle.py` (lines 97-109):
strip, drop the numbering mark, strip again. -/
def clean_text_root (text : Str) : Str :=
  if text.isEmpty then []
  else pyStrip (numMarkDrop (pyStrip text))

/-- Trailing/leading punctuation set stripped by the lyric-oriented
cleaners: `'。，！？,.!?'`. -/
def lrcPunct : List Char := ['。', '，', '！', '？', ',', '.', '!', '?']

/-- `clean_text` of `whisper_translator/subtitle.py` (lines 52-58): strip,
drop the numbering mark, then `strip('。，！？,.!?')`. -/
def clean_text_wt (text : Str) : Str :=
  if text.isEmpty then []
  else pyStripSet lrcPunct (numMarkDrop (pyStrip text))

/-- Local `clean_text` of the root `save_lrcx` (subtitle.py lines
189-198).  After `text.strip()` the code reads `text[0]`; on a non-empty
but whitespace-only input the stripped text is empty and this raises
`IndexError`, modelled by `none`. -/
def clean_text_lrcx_root (text : Str) : Option Str :=
  if text.isEmpty then some []
  else
    let t := pyStrip text
    match t with
    | [] => none
    | c :: _ =>
      if c.isDigit then
        let parts := if strIn ['.'] t then pySplit1 '.' t else pySplit1 '。' t
        match parts with
        | [a, b] =>
          if isDigitStr (pyStrip a) then some (pyStripSet lrcPunct (pyStrip b))
          else some (pyStripSet lrcPunct t)
        | _ => some (pyStripSet lrcPunct t)
      else some (pyStripSet lrcPunct t)

/-- The lyric-tag direction of the time codec: `format_time(t, to_lrc=True)`
of `whisper_translator/subtitle.py` (lines 38-50), identical to the local
`format_time` of the root `save_lrcx`.  Any failure returns the input
unchanged. -/
def format_time_lrc (time_str : Str) : Str :=
  match splitCh ':' time_str with
  | [h, m, s0] =>
    match splitCh ',' s0 with
    | [s, ms] =>
      match pyInt? h, pyInt? m, pyInt? s with
      | some hv, some mv, some sv =>
        let total := hv * 3600 + mv * 60 + sv
        '[' :: pyFmtPadInt 2 (total.fdiv 60) ++ ':' :: pyFmtPadInt 2 (total.emod 60) ++
          '.' :: ms.take 2 ++ [']']
      | _, _, _ => time_str
    | _ => time_str
  | _ => time_str

/-- The canonical direction of the time codec: `parse_time(t, from_lrc=True)`
of `whisper_translator/subtitle.py` (lines 27-36), identical to the inline
conversion of the root `parse_lrcx`.  The argument is the tag content
`mm:ss.xx` (the brackets are removed by the caller).  Any failure returns
the input unchanged. -/
def parse_time_lrc (time_str : Str) : Str :=
  match splitCh ':' time_str with
  | [m, rest] =>
    match splitCh '.' rest with
    | [s, ms] =>
      match pyInt? m, pyInt? s, pyInt? (ms ++ ['0']) with
      | some mv, some sv, some msv =>
        '0' :: '0' :: ':' :: pyFmtPadInt 2 mv ++ ':' :: pyFmtPadInt 2 sv ++
          ',' :: pyFmtPadInt 3 msv
      | _, _, _ => time_str
    | _ => time_str
  | _ => time_str

/-- Tag-content extraction of `parse_lrcx`: `line[1:line.find(']')]` for a
line that starts with `'['` (when `']'` is absent, `find` returns `-1` and
the slice drops the first and last characters). -/
def tagOf (l : Str) : Str :=
  match pyFindCh ']' l with
  | some j => (l.drop 1).take (j - 1)
  | none => (l.drop 1).dropLast

/-- Text part of a `parse_lrcx` content line: `line[line.find(']')+1:].strip()`
(when `']'` is absent the slice is the whole line). -/
def textOf (l : Str) : Str :=
  match pyFindCh ']' l with
  | some j => pyStrip (l.drop (j + 1))
  | none => pyStrip l

/-- The translation marker literal `[tr:zh-Hans]`. -/
def trMark : Str := "[tr:zh-Hans]".data

/-- One numbered block of `save_srt` (root lines 156-168 and wt lines
178-189 are identical): index line, timing line, target line, source line
unless `chinese_only`, and the blank separator line.  Each written chunk
ends in `\n`, so the output is modelled as the list of lines written. -/
def srt_entry_block (i : Nat) (e : SubtitleEntry) (chinese_only : Bool) : List Str :=
  natDigits i :: (e.start_time ++ ' ' :: '-' :: '-' :: '>' :: ' ' :: e.end_time) ::
    e.target_text :: (if chinese_only then [[]] else [e.source_text, []])

/-- Blocks of `save_srt` for `enumerate(entries, i)`. -/
def srtBlocks (chinese_only : Bool) (i : Nat) : List SubtitleEntry → List Str
  | [] => []
  | e :: es => srt_entry_block i e chinese_only ++ srtBlocks chinese_only (i + 1) es

/-- `save_srt(entries, path, chinese_only)`: raises `ValueError` on an
empty document (`none`), otherwise writes one block per entry with the
entries re-numbered from 1. -/
def save_srt (entries : List SubtitleEntry) (chinese_only : Bool) : Option (List Str) :=
  if entries.isEmpty then none
  else some (srtBlocks chinese_only 1 entries)

/-- Lines contributed by one entry in the root `save_lrcx` (subtitle.py
lines 200-216): both texts are cleaned first (either cleaning can raise,
hence `Option`), the entry is skipped when the cleaned source is empty,
and otherwise a source line plus (unless `chinese_only`) a translation
line are written. -/
def lrcx_entry_lines_root (e : SubtitleEntry) (chinese_only : Bool) : Option (List Str) :=
  let tag := format_time_lrc e.start_time
  match clean_text_lrcx_root e.source_text, clean_text_lrcx_root e.target_text with
  | some src, some tgt =>
    if src.isEmpty then some []
    else some ((tag ++ src) :: if chinese_only then [] else [tag ++ trMark ++ tgt])
  | _, _ => none

/-- Root `save_lrcx` (subtitle.py lines 170-216): raises on an empty
document, writes the two header lines, then the per-entry lines; a raised
`IndexError` from the local `clean_text` aborts the writer. -/
def save_lrcx_root (entries : List SubtitleEntry) (chinese_only : Bool) :
    Option (List Str) :=
  if entries.isEmpty then none
  else
    (entries.foldr
      (fun e acc =>
        match lrcx_entry_lines_root e chinese_only, acc with
        | some ls, some rest => some (ls ++ rest)
        | _, _ => none)
      (some [])).map
      (fun body => "[ver:1.0]".data :: "[offset:0]".data :: body)

/-- Lines contributed by one entry in the wt `save_lrcx`
(`whisper_translator/subtitle.py` lines 191-209): the skip test is
`not entry.source_text.strip()` on the RAW source, after which both texts
are cleaned with the total module-level `clean_text`. -/
def lrcx_entry_lines_wt (e : SubtitleEntry) (chinese_only : Bool) : List Str :=
  if (pyStrip e.source_text).isEmpty then []
  else
    let tag := format_time_lrc e.start_time
    (tag ++ clean_text_wt e.source_text) ::
      if chinese_only then [] else [tag ++ trMark ++ clean_text_wt e.target_text]

/-- wt `save_lrcx`: raises on an empty document, writes two header lines
then the per-entry lines. -/
def save_lrcx_wt (entries : List SubtitleEntry) (chinese_only : Bool) :
    Option (List Str) :=
  if entries.isEmpty then none
  else
    some ("[ver:1.0]".data :: "[offset:0]".data ::
      (entries.foldr (fun e acc => lrcx_entry_lines_wt e chinese_only ++ acc) []))

section WriterExamples

example : format_time_lrc ("00:01:05,345".data) = "[01:05.34]".data := by decide
example : parse_time_lrc ("01:05.34".data) = "00:01:05,340".data := by decide
example : clean_text_lrcx_root ("3. hi".data) = some ("hi".data) := by decide
example : clean_text_lrcx_root (" ".data) = none := by decide
example : clean_text_wt ("3.".data) = [] := by decide

end WriterExamples

/-!
Parsers: `parse_lrcx` and `parse_srt` of the root `subtitle.py`.
-/

/-- Time conversion of one content line of the root `parse_lrcx`
(subtitle.py lines 242-245): split the tag as `mm:ss.xx`, convert the
ints, format the canonical time; `none` models a raised `ValueError`. -/
def lrcxTime (l : Str) : Option Str :=
  match splitCh ':' (tagOf l) with
  | [minutes, seconds0] =>
    match splitCh '.' seconds0 with
    | [seconds, ms] =>
      match pyInt? minutes, pyInt? seconds, pyInt? (ms ++ ['0']) with
      | some mv, some sv, some msv =>
        some ('0' :: '0' :: ':' :: pyFmtPadInt 2 mv ++ ':' ::
          pyFmtPadInt 2 sv ++ ',' :: pyFmtPadInt 3 msv)
      | _, _, _ => none
    | _ => none
  | _ => none

/-- One content line of the root `parse_lrcx` (subtitle.py lines 237-254):
convert the time tag, then construct the entry when the text is non-empty
(the entry's `__post_init__` validates the time pattern).  `none` covers
every skipped path: a raised `ValueError` from splitting/`int`/validation,
or empty text. -/
def lrcxEmit (l : Str) (idx : Nat) : Option SubtitleEntry :=
  match lrcxTime l with
  | some time_str =>
    if (textOf l).isEmpty then none
    else mkEntryRoot idx time_str time_str (textOf l) []
  | none => none

/-- Line loop of the root `parse_lrcx` with the running `index` counter. -/
def lrcxLoop (idx : Nat) : List Str → List SubtitleEntry
  | [] => []
  | raw :: rest =>
    let l := pyStrip raw
    if l.isEmpty || leadsWith ("[ver:".data) l || leadsWith ("[offset:".data) l then
      lrcxLoop idx rest
    else if strIn ("[tr:".data) l then lrcxLoop idx rest
    else if leadsWith (['[']) l then
      match lrcxEmit l idx with
      | some e => e :: lrcxLoop (idx + 1) rest
      | none => lrcxLoop idx rest
    else lrcxLoop idx rest

/-- `parse_lrcx(file_path)` of the root `subtitle.py` (lines 218-258),
over the list of raw lines of the file. -/
def parse_lrcx (rawLines : List Str) : List SubtitleEntry :=
  lrcxLoop 1 rawLines

/-- The SRT timing separator `' --> '`. -/
def arrowSep : Str := " --> ".data

/-- Closing rule of the root `parse_srt`: an open entry is emitted only
when its accumulated text and both timestamps are non-empty. -/
def srtClose : Option SubtitleEntry → List SubtitleEntry
  | some e =>
    if !e.source_text.isEmpty && !e.start_time.isEmpty && !e.end_time.isEmpty then [e]
    else []
  | none => []

/-- Continuation condition of the text-collecting inner loop of
`parse_srt`: non-blank, not an index line, not a timing line. -/
def srtTextCont (l : Str) : Bool :=
  !(pyStrip l).isEmpty && !isDigitStr l && !strIn arrowSep l

/-- Fuel-driven scanner of the root `parse_srt` (subtitle.py lines 40-93);
the fuel decreases once per outer-loop step and the text branch consumes
at least one line per step, so the fuel passed by `parse_srt` suffices
(fuel exhaustion mimics end of input, an unreachable case there). -/
def parseSrtGo : Nat → Option SubtitleEntry → List Str → List SubtitleEntry
  | 0, cur, _ => srtClose cur
  | _ + 1, cur, [] => srtClose cur
  | fuel + 1, cur, l :: rest =>
    if l.isEmpty then srtClose cur ++ parseSrtGo fuel none rest
    else if isDigitStr l then
      parseSrtGo fuel (some ⟨digitsToNat l, [], [], [], []⟩) rest
    else if strIn arrowSep l && cur.isSome then
      match splitOnStr arrowSep l with
      | [a, b] =>
        parseSrtGo fuel
          (cur.map (fun e => { e with start_time := pyStrip a, end_time := pyStrip b }))
          rest
      | _ => parseSrtGo fuel cur rest
    else
      match cur with
      | some e =>
        parseSrtGo fuel
          (some { e with source_text := joinWith '\n' (l :: rest.takeWhile srtTextCont) })
          (rest.dropWhile srtTextCont)
      | none => parseSrtGo fuel cur rest

/-- `parse_srt(file_path)` of the root `subtitle.py` (lines 32-95), over
the raw lines of the file (the reader strips every line first). -/
def parse_srt (rawLines : List Str) : List SubtitleEntry :=
  parseSrtGo (rawLines.length + 1) none (rawLines.map pyStrip)

/-!
Orchestrators: `translate_subtitles` of the root `subtitle.py` (lines
111-154) and of `whisper_translator/subtitle.py` (lines 140-176).  Both
take the mode string, the batch size, and per-call outcome oracles:
`bO w` is the batch gateway outcome for window `w`, `sO w t` the fallback
single-call outcome for text `t` of window `w` (wt only), and `gO k` the
single-mode gateway outcome for the `k`-th entry.
-/

/-- `for entry, trans in zip(batch, translations): entry.target_text =
trans.strip()` — entries beyond the translations (impossible in practice,
as the batch result has the window's length) keep their old target. -/
def zipWriteback (window : List SubtitleEntry) (translations : List Str) :
    List SubtitleEntry :=
  (window.zip translations).map (fun p => { p.1 with target_text := pyStrip p.2 }) ++
    window.drop translations.length

/-- Single-mode loop of the root orchestrator: the `k`-th entry's cleaned
source goes through `translate_single`, whose result is stripped into
`target_text`; failures were already swallowed inside `translate_single`. -/
def tsSingleLoop_root (gO : Nat → Option Str) : Nat → List SubtitleEntry → List SubtitleEntry
  | _, [] => []
  | k, e :: es =>
    { e with target_text :=
        pyStrip (translate_single_rootO (gO k) (clean_text_root e.source_text)) } ::
      tsSingleLoop_root gO (k + 1) es

/-- Batch-mode loop of the root orchestrator with window size `b + 1`. -/
def tsBatchLoop_root (b : Nat) (bO : Nat → Option Str) (w : Nat)
    (entries : List SubtitleEntry) : List SubtitleEntry :=
  if entries.isEmpty then []
  else
    let window := entries.take (b + 1)
    zipWriteback window
        (translate_batch_root (window.map (fun e => clean_text_root e.source_text)) (bO w)) ++
      tsBatchLoop_root b bO (w + 1) (entries.drop (b + 1))
termination_by entries.length
decreasing_by
  simp only [List.length_drop]
  cases entries with
  | nil => simp at *
  | cons x xs => simp; omega

/-- The mode string `"batch"`. -/
def batchStr : Str := "batch".data

/-- The mode string `"single"`. -/
def singleStr : Str := "single".data

/-- Root `translate_subtitles`: a `batch_size` of `0` makes
`range(0, total, 0)` raise, which the outer handler re-raises; otherwise
the root orchestrator never raises. -/
def translate_subtitles_root (mode : Str) (batch_size : Nat) (bO : Nat → Option Str)
    (gO : Nat → Option Str) (entries : List SubtitleEntry) :
    Except Unit (List SubtitleEntry) :=
  if mode = batchStr then
    match batch_size with
    | 0 => Except.error ()
    | b + 1 => Except.ok (tsBatchLoop_root b bO 0 entries)
  else Except.ok (tsSingleLoop_root gO 0 entries)

/-- Single-mode loop of the wt orchestrator: `translate_single` raises
`TranslationError` on a failure that exhausted its retries, and the
orchestrator's handler re-raises, aborting the document. -/
def tsSingleLoop_wt (gO : Nat → Option Str) : Nat → List SubtitleEntry →
    Except Unit (List SubtitleEntry)
  | _, [] => Except.ok []
  | k, e :: es =>
    match translate_single_exO (gO k) (clean_text_wt e.source_text) with
    | Except.error _ => Except.error ()
    | Except.ok t =>
      match tsSingleLoop_wt gO (k + 1) es with
      | Except.ok rest => Except.ok ({ e with target_text := pyStrip t } :: rest)
      | Except.error _ => Except.error ()

/-- Batch-mode loop of the wt orchestrator with window size `b + 1`. -/
def tsBatchLoop_wt (b : Nat) (bO : Nat → Option Str) (sO : Nat → Str → Option Str)
    (w : Nat) (entries : List SubtitleEntry) : List SubtitleEntry :=
  if entries.isEmpty then []
  else
    let window := entries.take (b + 1)
    zipWriteback window
        (translate_batch_fb (window.map (fun e => clean_text_wt e.source_text)) (bO w)
          (sO w)) ++
      tsBatchLoop_wt b bO sO (w + 1) (entries.drop (b + 1))
termination_by entries.length
decreasing_by
  simp only [List.length_drop]
  cases entries with
  | nil => simp at *
  | cons x xs => simp; omega

/-- wt `translate_subtitles`. -/
def translate_subtitles_wt (mode : Str) (batch_size : Nat) (bO : Nat → Option Str)
    (sO : Nat → Str → Option Str) (gO : Nat → Option Str)
    (entries : List SubtitleEntry) : Except Unit (List SubtitleEntry) :=
  if mode = batchStr then
    match batch_size with
    | 0 => Except.error ()
    | b + 1 => Except.ok (tsBatchLoop_wt b bO sO 0 entries)
  else tsSingleLoop_wt gO 0 entries

section ParserExamples

example :
    (parse_lrcx (["[ver:1.0]".data, "[00:05.25]hello".data, "[00:07.10][tr:zh-Hans]你好".data,
      "[00:09.00]world".data])).map (fun e => e.index) = [1, 2] := by decide
example :
    (parse_srt (["1".data, "00:00:01,000 --> 00:00:02,000".data, "hello".data])).map
      (fun e => e.source_text) = ["hello".data] := by decide

end ParserExamples

/-!
Retry/backoff: lemmas about `mrLoop` and the claim C2 theorem.
-/

theorem mrLoop_succ_eq (gw : Nat → Option Str) (rd a r : Nat) :
    mrLoop gw rd a (r + 1) =
      match gw a with
      | some c => (some (pyStrip c), 1, [])
      | none =>
        if r = 0 then (none, 1, [])
        else
          let r0 := mrLoop gw rd (a + 1) r
          (r0.1, r0.2.1 + 1, rd * 2 ^ a :: r0.2.2) := rfl

theorem mrLoop_of_failures_then_success (gw : Nat → Option Str) (rd : Nat) (c : Str) :
    ∀ f a remaining, f < remaining → (∀ j, j < f → gw (a + j) = none) →
      gw (a + f) = some c →
      mrLoop gw rd a remaining =
        (some (pyStrip c), f + 1, (List.range f).map (fun j => rd * 2 ^ (a + j))) := by
  intro f
  induction f with
  | zero =>
    intro a remaining hlt _ hsucc
    match remaining, hlt with
    | r + 1, _ =>
      rw [mrLoop_succ_eq]
      have h : gw a = some c := by simpa using hsucc
      rw [h]
      simp
  | succ k ih =>
    intro a remaining hlt hfail hsucc
    match remaining, hlt with
    | r + 1, hlt =>
      have hr : k < r := by omega
      have h0 : gw a = none := by simpa using hfail 0 (by omega)
      have hrec := ih (a + 1) r hr
        (fun j hj => by
          have := hfail (j + 1) (by omega)
          simpa [Nat.add_assoc, Nat.add_comm 1 j] using this)
        (by
          have : a + 1 + k = a + (k + 1) := by omega
          rw [this]; exact hsucc)
      rw [mrLoop_succ_eq, h0]
      have hrne : ¬ r = 0 := by omega
      simp only [hrne, if_false, hrec]
      have hranges : (List.range (k + 1)).map (fun j => rd * 2 ^ (a + j)) =
          rd * 2 ^ a :: (List.range k).map (fun j => rd * 2 ^ (a + 1 + j)) := by
        rw [List.range_succ_eq_map, List.map_cons, List.map_map]
        refine congrArg₂ List.cons (by simp) (List.map_congr_left ?_)
        intro j _
        simp only [Function.comp_apply]
        congr 2
        omega
      rw [hranges]

theorem mrLoop_calls_le (gw : Nat → Option Str) (rd : Nat) :
    ∀ remaining a, (mrLoop gw rd a remaining).2.1 ≤ remaining := by
  intro remaining
  induction remaining with
  | zero => intro a; exact le_rfl
  | succ r ih =>
    intro a
    rw [mrLoop_succ_eq]
    cases h : gw a with
    | some c => simp
    | none =>
      by_cases hr : r = 0
      · simp [hr]
      · simp only [hr, if_false]
        have := ih (a + 1)
        omega

theorem mrLoop_all_failures (gw : Nat → Option Str) (rd : Nat)
    (hfail : ∀ j, gw j = none) :
    ∀ remaining a, (mrLoop gw rd a remaining).1 = none ∧
      (mrLoop gw rd a remaining).2.1 = remaining ∧
      (mrLoop gw rd a remaining).2.2.length = remaining - 1 := by
  intro remaining
  induction remaining with
  | zero => intro a; exact ⟨rfl, rfl, rfl⟩
  | succ r ih =>
    intro a
    rw [mrLoop_succ_eq, hfail a]
    by_cases hr : r = 0
    · simp [hr]
    · have := ih (a + 1)
      simp only [hr, if_false]
      refine ⟨this.1, by simp [this.2.1], ?_⟩
      simp only [List.length_cons, this.2.2]
      omega

/-- Claim C2: on transient failure `make_request` makes at most
`max_retries` attempts; the delay before the k-th retry (1-indexed) is
`retry_delay * 2 ^ (k - 1)`; a gateway failing on the first `f` attempts
and succeeding on attempt `f` (0-based) within the budget is called
exactly `f + 1` times, the success is returned with no error, and the
delays slept are exactly `retry_delay * 2 ^ 0, …, retry_delay * 2 ^ (f-1)`;
after the final failed attempt no delay is taken (an all-failure run
sleeps only `max_retries - 1` times). -/
theorem claim_C2 (max_retries retry_delay f : Nat) (c : Str) (gw : Nat → Option Str)
    (hf : f < max_retries) (hfail : ∀ j, j < f → gw j = none) (hsucc : gw f = some c) :
    make_request gw max_retries retry_delay =
      (some (pyStrip c), f + 1, (List.range f).map (fun j => retry_delay * 2 ^ j)) ∧
    (∀ gw2 : Nat → Option Str,
      (make_request gw2 max_retries retry_delay).2.1 ≤ max_retries) ∧
    (∀ gw2 : Nat → Option Str, (∀ j, gw2 j = none) →
      (make_request gw2 max_retries retry_delay).1 = none ∧
      (make_request gw2 max_retries retry_delay).2.2.length = max_retries - 1) := by
  refine ⟨?_, ?_, ?_⟩
  · have := mrLoop_of_failures_then_success gw retry_delay c f 0 max_retries hf
      (fun j hj => by simpa using hfail j hj) (by simpa using hsucc)
    simpa [make_request] using this
  · intro gw2
    exact mrLoop_calls_le gw2 retry_delay max_retries 0
  · intro gw2 h2
    have := mrLoop_all_failures gw2 retry_delay h2 max_retries 0
    exact ⟨this.1, this.2.2⟩

/-- Witness for C2 at the spec's scenario: `max_retries = 3`,
`retry_delay = 1`, two failures then a success: three calls, delays of
1 then 2 seconds, the success returned. -/
theorem claim_C2_witness :
    make_request (fun n => if n < 2 then none else some ("好".data)) 3 1 =
      (some ("好".data), 3, [1, 2]) := by
  have h := claim_C2 3 1 2 ("好".data) (fun n => if n < 2 then none else some ("好".data))
    (by omega) (fun j hj => by simp [hj]) (by simp)
  exact h.1.trans (by decide)

/-!
Claim C10: blank input short-circuits the single translators.
-/

/-- Claim C10: for an empty or whitespace-only input, every variant's
single-text translator returns the empty string immediately, making no
gateway call, consuming no retry attempt, sleeping no delay, and raising
no error (root `translate_single`, wt `translate_text`/`translate_single`,
cn `translate_single` share the guard `if not text.strip(): return ""`). -/
theorem claim_C10 (gw : Nat → Option Str) (max_retries retry_delay : Nat) (text : Str)
    (h : (pyStrip text).isEmpty) :
    translate_single_root_full gw max_retries retry_delay text = ([], 0, []) ∧
    translate_single_ex_full gw max_retries retry_delay text = (Except.ok [], 0, []) := by
  constructor
  · unfold translate_single_root_full
    rw [if_pos h]
  · unfold translate_single_ex_full
    rw [if_pos h]

/-- Witness for C10 on the whitespace-only input `"  "` with an
always-failing gateway: no call is made and no error is raised. -/
theorem claim_C10_witness :
    translate_single_root_full (fun _ => none) 3 1 ("  ".data) = ([], 0, []) ∧
    translate_single_ex_full (fun _ => none) 3 1 ("  ".data) = (Except.ok [], 0, []) :=
  claim_C10 (fun _ => none) 3 1 ("  ".data) (by decide)

/-!
Claim C8: totality of the text normalizer.
-/

/-- Claim C8 (code bug): the local `clean_text` of the root `save_lrcx`
evaluates `text[0]` after stripping, so the non-empty whitespace-only
input `" "` raises `IndexError` (modelled by `none`) instead of returning
`""` — contradicting the spec's totality promise; the module-level
`clean_text` of `whisper_translator/subtitle.py` is total and sends both
`""` and `" "` to `""` as the claim states. -/
theorem claim_C8 :
    clean_text_lrcx_root (" ".data) = none ∧
    clean_text_wt (" ".data) = [] ∧ clean_text_wt [] = [] ∧
    clean_text_root (" ".data) = [] ∧ clean_text_root [] = [] := by
  decide

/-!
Batch alignment: the scatter of parsed lines over the kept indices equals
the specification-side `alignSpec`.
-/

/-- Shift the position of an enumerated text by one. -/
def pairShift (p : Nat × Str) : Nat × Str := (p.1 + 1, p.2)

theorem pyEnum_shift (ts : List Str) : ∀ n, pyEnum (n + 1) ts = (pyEnum n ts).map pairShift := by
  induction ts with
  | nil => intro n; rfl
  | cons t ts ih =>
    intro n
    simp only [pyEnum, List.map_cons, pairShift]
    exact congrArg _ (ih (n + 1))

theorem filter_map_pairShift (Q : Str → Bool) (l : List (Nat × Str)) :
    (l.map pairShift).filter (fun p => Q p.2) =
      (l.filter (fun p => Q p.2)).map pairShift := by
  induction l with
  | nil => rfl
  | cons a l ih =>
    simp only [List.map_cons, List.filter_cons]
    by_cases h : Q a.2
    · simp only [pairShift, h, if_true, List.map_cons]
      exact congrArg _ ih
    · simp only [pairShift, h, if_false]
      exact ih

theorem valid_indices_cons (t : Str) (ts : List Str) :
    valid_indices (t :: ts) =
      if !(pyStrip t).isEmpty then (0, t) :: (valid_indices ts).map pairShift
      else (valid_indices ts).map pairShift := by
  unfold valid_indices
  show ((0, t) :: pyEnum 1 ts).filter _ = _
  rw [List.filter_cons, pyEnum_shift, filter_map_pairShift (fun s => !(pyStrip s).isEmpty)]

theorem scatter_cons (base : List Str) (p : Nat × Str) (ps : List (Nat × Str)) :
    scatter base (p :: ps) = scatter (base.set p.1 p.2) ps := rfl

theorem scatter_map_pairShift (ps : List (Nat × Str)) :
    ∀ (base : List Str) (x : Str),
      scatter (x :: base) (ps.map pairShift) = x :: scatter base ps := by
  induction ps with
  | nil => intro base x; rfl
  | cons p ps ih =>
    intro base x
    simp only [List.map_cons, pairShift, scatter_cons, List.set_cons_succ]
    exact ih (base.set p.1 p.2) x

theorem zip_map_shift (l : List Nat) : ∀ l' : List Str,
    (l.map (· + 1)).zip l' = (l.zip l').map pairShift := by
  induction l with
  | nil => intro l'; rfl
  | cons n l ih =>
    intro l'
    cases l' with
    | nil => rfl
    | cons x l' =>
      simp only [List.map_cons, List.zip_cons_cons, pairShift]
      exact congrArg _ (ih l')

theorem map_snd_pairShift (l : List (Nat × Str)) :
    (l.map pairShift).map Prod.snd = l.map Prod.snd := by
  induction l with
  | nil => rfl
  | cons a l ih => simp [pairShift, ih]

theorem alignSpec_nil_lines : ∀ ts : List Str, alignSpec ts [] = List.replicate ts.length [] := by
  intro ts
  induction ts with
  | nil => rfl
  | cons t ts ih =>
    by_cases h : (pyStrip t).isEmpty <;> simp [alignSpec, h, ih, List.replicate_succ]

theorem scatter_valid_eq_alignSpec : ∀ (ts : List Str) (lines : List Str),
    scatter (List.replicate ts.length []) (((valid_indices ts).map Prod.fst).zip lines) =
      alignSpec ts lines := by
  intro ts
  induction ts with
  | nil => intro lines; rfl
  | cons t ts ih =>
    intro lines
    rw [valid_indices_cons]
    have hshift : (List.map Prod.fst ((valid_indices ts).map pairShift)) =
        ((valid_indices ts).map Prod.fst).map (· + 1) := by
      simp [pairShift]
    by_cases hP : (pyStrip t).isEmpty
    · rw [if_neg (by simp [hP]), hshift, zip_map_shift, List.length_cons,
        List.replicate_succ, scatter_map_pairShift, ih lines]
      simp [alignSpec, hP]
    · rw [if_pos (by simp [hP])]
      cases lines with
      | nil =>
        rw [List.zip_nil_right]
        show List.replicate (ts.length + 1) [] = _
        simp [alignSpec, hP, alignSpec_nil_lines, List.replicate_succ]
      | cons l ls =>
        simp only [List.map_cons, List.zip_cons_cons, scatter_cons, List.length_cons,
          List.replicate_succ, List.set_cons_zero, hshift]
        rw [zip_map_shift, scatter_map_pairShift, ih ls]
        simp [alignSpec, hP]

theorem alignSpec_length : ∀ (ts : List Str) (lines : List Str),
    (alignSpec ts lines).length = ts.length := by
  intro ts
  induction ts with
  | nil => intro lines; rfl
  | cons t ts ih =>
    intro lines
    by_cases hP : (pyStrip t).isEmpty
    · simp [alignSpec, hP, ih]
    · cases lines <;> simp [alignSpec, hP, ih]

theorem valid_indices_snd (ts : List Str) :
    (valid_indices ts).map Prod.snd = ts.filter (fun t => !(pyStrip t).isEmpty) := by
  induction ts with
  | nil => rfl
  | cons t ts ih =>
    rw [valid_indices_cons, List.filter_cons]
    by_cases hP : (pyStrip t).isEmpty
    · rw [if_neg (by simp [hP]), if_neg (by simp [hP]), map_snd_pairShift]
      exact ih
    · rw [if_pos (by simp [hP]), if_pos (by simp [hP])]
      simp only [List.map_cons]
      rw [map_snd_pairShift, ih]

theorem valid_indices_empty_align (ts : List Str) (h : (valid_indices ts).isEmpty)
    (lines : List Str) : alignSpec ts lines = List.replicate ts.length [] := by
  induction ts with
  | nil => rfl
  | cons t ts ih =>
    rw [valid_indices_cons] at h
    by_cases hP : (pyStrip t).isEmpty
    · rw [if_neg (by simp [hP])] at h
      have h' : (valid_indices ts).isEmpty := by
        cases hv : valid_indices ts with
        | nil => rfl
        | cons a l => rw [hv] at h; simp [pairShift] at h
      simp [alignSpec, hP, ih h', List.replicate_succ]
    · rw [if_pos (by simp [hP])] at h
      simp at h

theorem fixCount_nil (k : Nat) : fixCount [] k = List.replicate k [] := by
  cases k with
  | zero => rfl
  | succ k => simp [fixCount]

theorem fixCount_cons (l : Str) (ls : List Str) (k : Nat) :
    fixCount (l :: ls) (k + 1) = l :: fixCount ls k := by
  simp only [fixCount, List.length_cons]
  by_cases h : ls.length < k
  · rw [if_pos (by omega), if_pos h]
    have e : k + 1 - (ls.length + 1) = k - ls.length := by omega
    rw [e]
    rfl
  · rw [if_neg (by omega), if_neg h, List.take_succ_cons]

theorem alignSpec_fixCount : ∀ (ts : List Str) (lines : List Str),
    alignSpec ts (fixCount lines (valid_indices ts).length) = alignSpec ts lines := by
  intro ts
  induction ts with
  | nil => intro lines; rfl
  | cons t ts ih =>
    intro lines
    rw [valid_indices_cons]
    by_cases hP : (pyStrip t).isEmpty
    · rw [if_neg (by simp [hP]), List.length_map]
      show alignSpec (t :: ts) (fixCount lines (valid_indices ts).length) = _
      simp only [alignSpec, hP, if_pos rfl]
      exact congrArg _ (ih lines)
    · rw [if_pos (by simp [hP]), List.length_cons, List.length_map]
      cases lines with
      | nil =>
        rw [fixCount_nil, List.replicate_succ]
        simp only [alignSpec, hP]
        rw [if_neg (by simp), if_neg (by simp)]
        refine congrArg _ ?_
        rw [← fixCount_nil, ih]
      | cons l ls =>
        rw [fixCount_cons]
        simp only [alignSpec, hP]
        rw [if_neg (by simp), if_neg (by simp)]
        exact congrArg _ (ih ls)

/-- Claim C1: for every batch window, on a successful gateway response
both embedded `translate_batch` implementations (the root one, which
writes back `min`-many results, and the wt/cn one, which pads/truncates
first) compute exactly the alignment described by the claim — encoded by
`alignSpec`: the i-th parsed non-blank response line goes to the i-th text
that was non-blank, a shortfall is padded with empty strings at the tail,
an excess is discarded, and every blank text gets the empty string.  The
result has the input's length, and the texts actually sent are exactly
the non-blank ones. -/
theorem claim_C1 (texts : List Str) (resp : Str) (single : Str → Option Str)
    (lines : List Str) :
    translate_batch_root texts (some resp) = alignSpec texts (parseResponse resp) ∧
    translate_batch_fb texts (some resp) single = alignSpec texts (parseResponse resp) ∧
    (alignSpec texts lines).length = texts.length ∧
    (valid_indices texts).map Prod.snd = texts.filter (fun t => !(pyStrip t).isEmpty) := by
  refine ⟨?_, ?_, alignSpec_length texts lines, valid_indices_snd texts⟩
  · unfold translate_batch_root
    by_cases he : texts.isEmpty
    · rw [if_pos he]
      cases texts with
      | nil => rfl
      | cons a l => exact absurd he (by simp)
    · rw [if_neg he]
      by_cases hv : (valid_indices texts).isEmpty
      · rw [if_pos hv, valid_indices_empty_align texts hv]
      · rw [if_neg hv]
        exact scatter_valid_eq_alignSpec texts (parseResponse resp)
  · unfold translate_batch_fb
    by_cases he : texts.isEmpty
    · rw [if_pos he]
      cases texts with
      | nil => rfl
      | cons a l => exact absurd he (by simp)
    · rw [if_neg he]
      by_cases hv : (valid_indices texts).isEmpty
      · rw [if_pos hv, valid_indices_empty_align texts hv]
      · rw [if_neg hv]
        show scatter (List.replicate texts.length [])
            (((valid_indices texts).map Prod.fst).zip
              (fixCount (parseResponse resp) ((valid_indices texts).map Prod.snd).length)) =
          alignSpec texts (parseResponse resp)
        rw [scatter_valid_eq_alignSpec texts, List.length_map, alignSpec_fixCount]

/-- Claim C4 (amended to the wt/cn variants): when the batch gateway call
for a window still fails after exhausting retries (`resp = none`), the
wt/cn `translate_batch` translates each kept (non-blank) text of the
window individually through `translate_single`, a per-text failure yields
the empty string for that text instead of aborting the window, and every
result is mapped back to its original position (the `alignSpec`
alignment); the kept texts are exactly the non-blank ones.  The root
variant has no such fallback (see the counterexample). -/
theorem claim_C4 (texts : List Str) (single : Str → Option Str) :
    translate_batch_fb texts none single =
      alignSpec texts (((valid_indices texts).map Prod.snd).map
        (fun t =>
          match translate_single_exO (single t) t with
          | Except.ok tr => tr
          | Except.error _ => [])) ∧
    (∀ t : Str, (pyStrip t).isEmpty = false → single t = none →
      translate_single_exO (single t) t = Except.error ()) ∧
    (valid_indices texts).map Prod.snd = texts.filter (fun t => !(pyStrip t).isEmpty) := by
  refine ⟨?_, ?_, valid_indices_snd texts⟩
  · unfold translate_batch_fb
    by_cases he : texts.isEmpty
    · rw [if_pos he]
      cases texts with
      | nil => rfl
      | cons a l => exact absurd he (by simp)
    · rw [if_neg he]
      by_cases hv : (valid_indices texts).isEmpty
      · rw [if_pos hv, valid_indices_empty_align texts hv]
      · rw [if_neg hv]
        exact scatter_valid_eq_alignSpec texts _
  · intro t h1 h2
    unfold translate_single_exO
    rw [if_neg (by simp [h1]), h2]

/-- Witness for C4: a window `["hello", " "]` whose batch call failed and
whose per-text calls also fail resolves to all-empty results in order;
the kept text's individual call is the one that raised. -/
theorem claim_C4_witness :
    translate_batch_fb ["hello".data, " ".data] none (fun _ => none) = [[], []] ∧
    translate_single_exO none ("hello".data) = Except.error () := by
  have h := claim_C4 (["hello".data, " ".data]) (fun _ => none)
  exact ⟨h.1.trans (by decide), (h.2.1 ("hello".data) (by decide) rfl)⟩

/-- Counterexample for C4 as universally stated: the root
`translate_batch` (src/translate.py) answers a failed batch call with
empty strings for every kept text and never invokes `translate_single` —
its definition consumes no single-call capability at all — whereas the
claimed fallback (embodied by the wt/cn variant) returns the successful
individual translation `"bon"` for the kept text `"hello"`. -/
theorem claim_C4_cex :
    translate_batch_root ["hello".data] none = [[]] ∧
    translate_batch_fb ["hello".data] none (fun _ => some ("bon".data)) =
      [['b', 'o', 'n']] ∧
    ([[]] : List Str) ≠ [['b', 'o', 'n']] := by
  refine ⟨by decide, by decide, by decide⟩

/-!
Single-mode orchestration (claim C3) and the frame property (claim C9).
-/

/-- Placeholder entry for positional `getD` access. -/
def dummyEntry : SubtitleEntry := ⟨0, [], [], [], []⟩

theorem translate_single_rootO_none (t : Str) : translate_single_rootO none t = [] := by
  unfold translate_single_rootO
  split <;> rfl

theorem tsSingleLoop_root_length (gO : Nat → Option Str) :
    ∀ (es : List SubtitleEntry) (k : Nat), (tsSingleLoop_root gO k es).length = es.length := by
  intro es
  induction es with
  | nil => intro k; rfl
  | cons e es ih => intro k; simp [tsSingleLoop_root, ih]

theorem tsSingleLoop_root_getD (gO : Nat → Option Str) :
    ∀ (es : List SubtitleEntry) (k j : Nat), j < es.length →
      (tsSingleLoop_root gO k es).getD j dummyEntry =
        { es.getD j dummyEntry with
          target_text := pyStrip (translate_single_rootO (gO (k + j))
            (clean_text_root (es.getD j dummyEntry).source_text)) } := by
  intro es
  induction es with
  | nil => intro k j h; simp at h
  | cons e es ih =>
    intro k j h
    cases j with
    | zero => simp [tsSingleLoop_root]
    | succ j =>
      have hj : j < es.length := by simpa using h
      simp only [tsSingleLoop_root, List.getD_cons_succ]
      rw [ih (k + 1) j hj]
      have e1 : k + 1 + j = k + (j + 1) := by omega
      rw [e1]

/-- Claim C3, amended to the root variant: in single mode the root
`translate_subtitles` (src/subtitle.py, with src/translate.py's
`translate_single`) processes the document in order and never raises —
whenever the gateway call for one entry still fails after exhausting all
retries (`gO k = none`), that entry's `target_text` becomes the empty
string and all other entries are still processed, with every non-target
field untouched.  In the whisper_translator package the same scenario
aborts the document (see the counterexample). -/
theorem claim_C3 (entries : List SubtitleEntry) (bO gO : Nat → Option Str)
    (batch_size k : Nat) (hk : k < entries.length) (hfail : gO k = none) :
    ∃ out, translate_subtitles_root singleStr batch_size bO gO entries = Except.ok out ∧
      out.length = entries.length ∧
      (out.getD k dummyEntry).target_text = [] ∧
      (∀ j, j < entries.length →
        frameOf (out.getD j dummyEntry) = frameOf (entries.getD j dummyEntry)) ∧
      (∀ j, j < entries.length → gO j = none →
        (out.getD j dummyEntry).target_text = []) := by
  refine ⟨tsSingleLoop_root gO 0 entries, ?_, tsSingleLoop_root_length gO entries 0, ?_, ?_, ?_⟩
  · unfold translate_subtitles_root
    rw [if_neg (by decide)]
  · rw [tsSingleLoop_root_getD gO entries 0 k hk]
    show pyStrip (translate_single_rootO (gO (0 + k)) _) = []
    rw [Nat.zero_add, hfail, translate_single_rootO_none]
    rfl
  · intro j hj
    rw [tsSingleLoop_root_getD gO entries 0 j hj]
    rfl
  · intro j hj hnone
    rw [tsSingleLoop_root_getD gO entries 0 j hj]
    show pyStrip (translate_single_rootO (gO (0 + j)) _) = []
    rw [Nat.zero_add, hnone, translate_single_rootO_none]
    rfl

/-- Witness for C3: a one-entry document whose only gateway call fails
still comes back `ok`, with the entry's target empty. -/
theorem claim_C3_witness :
    ∃ out, translate_subtitles_root singleStr 50 (fun _ => none) (fun _ => none)
        [⟨1, "00:00:01,000".data, "00:00:02,000".data, "hello".data, []⟩] =
        Except.ok out ∧
      out.length = 1 ∧ (out.getD 0 dummyEntry).target_text = [] := by
  obtain ⟨out, h1, h2, h3, _, _⟩ := claim_C3
    [⟨1, "00:00:01,000".data, "00:00:02,000".data, "hello".data, []⟩]
    (fun _ => none) (fun _ => none) 50 0 (by decide) rfl
  exact ⟨out, h1, by simpa using h2, h3⟩

/-- Counterexample for C3 as universally stated: in the
whisper_translator variant a transient failure that exhausts the retries
of one entry's gateway call raises `TranslationError`, and
`translate_subtitles` re-raises it — the whole-document translation
aborts instead of continuing with `target_text = ""`. -/
theorem claim_C3_cex :
    translate_subtitles_wt singleStr 50 (fun _ => none) (fun _ _ => none) (fun _ => none)
      [⟨1, "00:00:01,000".data, "00:00:02,000".data, "hello".data, []⟩,
       ⟨2, "00:00:03,000".data, "00:00:04,000".data, "world".data, []⟩] =
      Except.error () := by
  rfl

theorem frameOf_set_target (e : SubtitleEntry) (x : Str) :
    frameOf { e with target_text := x } = frameOf e := rfl

theorem frame_zipWriteback : ∀ (w : List SubtitleEntry) (t : List Str),
    (zipWriteback w t).map frameOf = w.map frameOf := by
  intro w
  induction w with
  | nil => intro t; cases t <;> rfl
  | cons e es ih =>
    intro t
    cases t with
    | nil => rfl
    | cons x xs =>
      show frameOf { e with target_text := pyStrip x } ::
          (zipWriteback es xs).map frameOf = frameOf e :: es.map frameOf
      rw [frameOf_set_target]
      exact congrArg _ (ih xs)

theorem frame_tsSingleLoop_root (gO : Nat → Option Str) :
    ∀ (es : List SubtitleEntry) (k : Nat),
      (tsSingleLoop_root gO k es).map frameOf = es.map frameOf := by
  intro es
  induction es with
  | nil => intro k; rfl
  | cons e es ih =>
    intro k
    simp only [tsSingleLoop_root, List.map_cons, frameOf_set_target]
    exact congrArg _ (ih (k + 1))

theorem frame_tsBatchLoop_root (b : Nat) (bO : Nat → Option Str) :
    ∀ (n : Nat) (entries : List SubtitleEntry) (w : Nat), entries.length ≤ n →
      (tsBatchLoop_root b bO w entries).map frameOf = entries.map frameOf := by
  intro n
  induction n with
  | zero =>
    intro entries w h
    have he : entries = [] := List.eq_nil_of_length_eq_zero (by omega)
    subst he
    rw [tsBatchLoop_root]
    rfl
  | succ n ih =>
    intro entries w h
    rw [tsBatchLoop_root]
    by_cases he : entries.isEmpty
    · rw [if_pos he]
      cases entries with
      | nil => rfl
      | cons a l => exact absurd he (by simp)
    · rw [if_neg he]
      have hlen : (entries.drop (b + 1)).length ≤ n := by
        rw [List.length_drop]
        have : entries.length ≠ 0 := by
          cases entries with
          | nil => exact absurd rfl he
          | cons a l => simp
        omega
      rw [List.map_append, frame_zipWriteback, ih (entries.drop (b + 1)) (w + 1) hlen,
        ← List.map_append, List.take_append_drop]

theorem frame_tsSingleLoop_wt (gO : Nat → Option Str) :
    ∀ (es : List SubtitleEntry) (k : Nat) (out : List SubtitleEntry),
      tsSingleLoop_wt gO k es = Except.ok out → out.map frameOf = es.map frameOf := by
  intro es
  induction es with
  | nil =>
    intro k out h
    cases h
    rfl
  | cons e es ih =>
    intro k out h
    simp only [tsSingleLoop_wt] at h
    cases hx : translate_single_exO (gO k) (clean_text_wt e.source_text) with
    | error u => rw [hx] at h; cases h
    | ok t =>
      rw [hx] at h
      cases hr : tsSingleLoop_wt gO (k + 1) es with
      | error u => rw [hr] at h; cases h
      | ok rest =>
        rw [hr] at h
        cases h
        simp only [List.map_cons, frameOf_set_target]
        exact congrArg _ (ih (k + 1) rest hr)

theorem frame_tsBatchLoop_wt (b : Nat) (bO : Nat → Option Str) (sO : Nat → Str → Option Str) :
    ∀ (n : Nat) (entries : List SubtitleEntry) (w : Nat), entries.length ≤ n →
      (tsBatchLoop_wt b bO sO w entries).map frameOf = entries.map frameOf := by
  intro n
  induction n with
  | zero =>
    intro entries w h
    have he : entries = [] := List.eq_nil_of_length_eq_zero (by omega)
    subst he
    rw [tsBatchLoop_wt]
    rfl
  | succ n ih =>
    intro entries w h
    rw [tsBatchLoop_wt]
    by_cases he : entries.isEmpty
    · rw [if_pos he]
      cases entries with
      | nil => rfl
      | cons a l => exact absurd he (by simp)
    · rw [if_neg he]
      have hlen : (entries.drop (b + 1)).length ≤ n := by
        rw [List.length_drop]
        have : entries.length ≠ 0 := by
          cases entries with
          | nil => exact absurd rfl he
          | cons a l => simp
        omega
      rw [List.map_append, frame_zipWriteback, ih (entries.drop (b + 1)) (w + 1) hlen,
        ← List.map_append, List.take_append_drop]

/-- Claim C9: whenever either variant's `translate_subtitles` (in single
or batch mode, for any window size and any gateway outcomes) returns a
document, that document has the same length as the input and the same
entries in the same order up to `target_text`: `index`, `start_time`,
`end_time` and `source_text` of every entry are unchanged. -/
theorem claim_C9 (mode : Str) (batch_size : Nat) (bO gO : Nat → Option Str)
    (sO : Nat → Str → Option Str) (entries : List SubtitleEntry) :
    (∀ out, translate_subtitles_root mode batch_size bO gO entries = Except.ok out →
      out.map frameOf = entries.map frameOf ∧ out.length = entries.length) ∧
    (∀ out, translate_subtitles_wt mode batch_size bO sO gO entries = Except.ok out →
      out.map frameOf = entries.map frameOf ∧ out.length = entries.length) := by
  constructor
  · intro out h
    unfold translate_subtitles_root at h
    by_cases hm : mode = batchStr
    · rw [if_pos hm] at h
      cases batch_size with
      | zero => cases h
      | succ b =>
        have hout : out = tsBatchLoop_root b bO 0 entries := by
          cases h
          rfl
        subst hout
        have hf := frame_tsBatchLoop_root b bO entries.length entries 0 le_rfl
        refine ⟨hf, ?_⟩
        have := congrArg List.length hf
        simpa using this
    · rw [if_neg hm] at h
      have hout : out = tsSingleLoop_root gO 0 entries := by
        cases h
        rfl
      subst hout
      have hf := frame_tsSingleLoop_root gO entries 0
      refine ⟨hf, ?_⟩
      have := congrArg List.length hf
      simpa using this
  · intro out h
    unfold translate_subtitles_wt at h
    by_cases hm : mode = batchStr
    · rw [if_pos hm] at h
      cases batch_size with
      | zero => cases h
      | succ b =>
        have hout : out = tsBatchLoop_wt b bO sO 0 entries := by
          cases h
          rfl
        subst hout
        have hf := frame_tsBatchLoop_wt b bO sO entries.length entries 0 le_rfl
        refine ⟨hf, ?_⟩
        have := congrArg List.length hf
        simpa using this
    · rw [if_neg hm] at h
      have hf0 := frame_tsSingleLoop_wt gO entries 0 out h
      refine ⟨hf0, ?_⟩
      have := congrArg List.length hf0
      simpa using this

/-- Witness for C9: a successful single-mode run over a one-entry
document keeps index, timing and source unchanged, mutating only the
target text. -/
theorem claim_C9_witness :
    ([(⟨1, "00:00:01,000".data, "00:00:02,000".data, "hello".data, "你好".data⟩ :
        SubtitleEntry)]).map frameOf =
      ([(⟨1, "00:00:01,000".data, "00:00:02,000".data, "hello".data, []⟩ :
        SubtitleEntry)]).map frameOf ∧
    ([(⟨1, "00:00:01,000".data, "00:00:02,000".data, "hello".data, "你好".data⟩ :
        SubtitleEntry)]).length =
      ([(⟨1, "00:00:01,000".data, "00:00:02,000".data, "hello".data, []⟩ :
        SubtitleEntry)]).length := by
  have h := (claim_C9 singleStr 50 (fun _ => none) (fun _ => some ("你好".data))
    (fun _ _ => none)
    [⟨1, "00:00:01,000".data, "00:00:02,000".data, "hello".data, []⟩]).1
    [⟨1, "00:00:01,000".data, "00:00:02,000".data, "hello".data, "你好".data⟩] (by rfl)
  exact h

/-!
Parsed index invariants (claim C6).
-/

theorem mkEntryRoot_index (idx : Nat) (a b c d : Str) (e : SubtitleEntry) :
    mkEntryRoot idx a b c d = some e → e.index = idx := by
  unfold mkEntryRoot
  split
  · intro h
    cases h
    rfl
  · split
    · intro h
      cases h
      rfl
    · intro h
      simp at h

theorem lrcxEmit_index (l : Str) (idx : Nat) (e : SubtitleEntry) :
    lrcxEmit l idx = some e → e.index = idx := by
  intro h
  unfold lrcxEmit at h
  split at h
  · split at h
    · simp at h
    · exact mkEntryRoot_index _ _ _ _ _ e h
  · simp at h

theorem lrcxLoop_mono : ∀ (ls : List Str) (idx : Nat),
    ((lrcxLoop idx ls).map (fun e => e.index)).Pairwise (· < ·) ∧
    (∀ e ∈ lrcxLoop idx ls, idx ≤ e.index) := by
  intro ls
  induction ls with
  | nil =>
    intro idx
    exact ⟨List.Pairwise.nil, fun e h => absurd h (List.not_mem_nil e)⟩
  | cons raw rest ih =>
    intro idx
    simp only [lrcxLoop]
    split
    · exact ih idx
    · split
      · exact ih idx
      · split
        · split
          next e hem =>
            have hidx := lrcxEmit_index _ _ _ hem
            obtain ⟨hp, hb⟩ := ih (idx + 1)
            constructor
            · simp only [List.map_cons]
              refine List.Pairwise.cons ?_ hp
              intro x hx
              obtain ⟨e', he', rfl⟩ := List.mem_map.mp hx
              have := hb e' he'
              rw [hidx]
              omega
            · intro e2 h2
              rcases List.mem_cons.mp h2 with h2 | h2
              · rw [h2, hidx]
              · have := hb e2 h2
                omega
          next hem => exact ih idx
        · exact ih idx

/-- Claim C6, amended: `parse_lrcx` assigns `index` from a running counter
starting at 1, so for every input file its entries' indices are strictly
increasing in document order (hence unique).  `parse_srt`, by contrast,
copies the numbering found in the file (see the counterexample), so its
indices are increasing only when the input's numbering is. -/
theorem claim_C6 (rawLines : List Str) :
    ((parse_lrcx rawLines).map (fun e => e.index)).Pairwise (· < ·) ∧
    ((parse_lrcx rawLines).map (fun e => e.index)).Nodup := by
  have h := (lrcxLoop_mono rawLines 1).1
  exact ⟨h, h.imp Nat.ne_of_lt⟩

/-- Counterexample for C6 as stated for both parsers: an SRT file whose
blocks are numbered 2 then 1 parses to entries with indices `[2, 1]`,
which is neither increasing nor sorted — `parse_srt` trusts the input
numbering. -/
theorem claim_C6_cex :
    (parse_srt (["2".data, "00:00:01,000 --> 00:00:02,000".data, "hello".data, "".data,
        "1".data, "00:00:03,000 --> 00:00:04,000".data, "world".data])).map
      (fun e => e.index) = [2, 1] ∧
    ¬ (([2, 1] : List Nat).Pairwise (· < ·)) := by
  exact ⟨by rfl, by decide⟩

/-!
Writer asymmetry (claim C7).
-/

theorem srt_entry_block_length (i : Nat) (e : SubtitleEntry) (co : Bool) :
    (srt_entry_block i e co).length = if co then 4 else 5 := by
  cases co <;> rfl

theorem srtBlocks_length (co : Bool) :
    ∀ (es : List SubtitleEntry) (i : Nat),
      (srtBlocks co i es).length = es.length * (if co then 4 else 5) := by
  intro es
  induction es with
  | nil => intro i; simp [srtBlocks]
  | cons e es ih =>
    intro i
    simp only [srtBlocks, List.length_append, srt_entry_block_length, ih, List.length_cons]
    cases co <;> simp <;> omega

/-- Claim C7, amended to the root lyric writer: `save_srt` emits a full
fixed-size block for every entry (4 lines with `chinese_only`, else 5 —
index, timing, target, optional source, blank), regardless of its texts;
the root `save_lrcx` contributes no line at all for an entry whose
normalized source is empty (provided the normalizer returns, see C8),
and for a non-empty normalized source it emits the source line and,
unless `chinese_only`, a translation line even when the normalized target
is empty.  The wt `save_lrcx` skips on the RAW stripped source instead
(see the counterexample). -/
theorem claim_C7 (entries : List SubtitleEntry) (e : SubtitleEntry) (co : Bool)
    (hne : entries ≠ []) :
    (∃ out, save_srt entries co = some out ∧
      out.length = entries.length * (if co then 4 else 5)) ∧
    (∀ tgt, clean_text_lrcx_root e.source_text = some [] →
      clean_text_lrcx_root e.target_text = some tgt →
      lrcx_entry_lines_root e co = some []) ∧
    (∀ src tgt, clean_text_lrcx_root e.source_text = some src → src ≠ [] →
      clean_text_lrcx_root e.target_text = some tgt →
      lrcx_entry_lines_root e co = some
        ((format_time_lrc e.start_time ++ src) ::
          if co then [] else [format_time_lrc e.start_time ++ trMark ++ tgt])) := by
  refine ⟨?_, ?_, ?_⟩
  · refine ⟨srtBlocks co 1 entries, ?_, srtBlocks_length co entries 1⟩
    unfold save_srt
    rw [if_neg (by simpa using hne)]
  · intro tgt hsrc htgt
    unfold lrcx_entry_lines_root
    rw [hsrc, htgt]
    rfl
  · intro src tgt hsrc hne2 htgt
    unfold lrcx_entry_lines_root
    rw [hsrc, htgt]
    have : src.isEmpty = false := by
      cases src with
      | nil => exact absurd rfl hne2
      | cons a l => rfl
    simp only [this]
    rfl

/-- Witness for C7: a one-entry SRT document yields a five-line block,
and a source of `"3."` (which normalizes to empty) with empty target
contributes no lyric line at all in the root writer. -/
theorem claim_C7_witness :
    (∃ out, save_srt [⟨1, "00:00:01,000".data, "00:00:02,000".data, "3.".data, []⟩] false =
        some out ∧ out.length = 5) ∧
    lrcx_entry_lines_root ⟨1, "00:00:01,000".data, "00:00:02,000".data, "3.".data, []⟩
      false = some [] := by
  have h := claim_C7 [⟨1, "00:00:01,000".data, "00:00:02,000".data, "3.".data, []⟩]
    ⟨1, "00:00:01,000".data, "00:00:02,000".data, "3.".data, []⟩ false (by simp)
  refine ⟨?_, h.2.1 [] (by decide) (by decide)⟩
  obtain ⟨out, ho, hl⟩ := h.1
  exact ⟨out, ho, by simpa using hl⟩

/-- Counterexample for C7 as stated for the wt lyric writer: the entry
source `"3."` strips to a non-blank string but normalizes to the empty
string, yet the wt `save_lrcx` still emits its two lines (with empty
text), because its skip test is on the raw stripped source rather than
the normalized one. -/
theorem claim_C7_cex :
    clean_text_wt ("3.".data) = [] ∧
    lrcx_entry_lines_wt ⟨1, "00:00:01,000".data, "00:00:01,000".data, "3.".data, []⟩ false =
      ["[00:01.00]".data, "[00:01.00]".data ++ trMark] ∧
    (["[00:01.00]".data, "[00:01.00]".data ++ trMark] : List Str) ≠ [] := by
  refine ⟨by decide, by decide, by decide⟩

/-!
Digit-string lemmas for the time codec (claim C5).
-/

/-- Every character of the string is a decimal digit character. -/
def allDigits (l : Str) : Prop := ∀ c ∈ l, ∃ d, d < 10 ∧ c = digitChar d

theorem digitChar_toNat (d : Nat) (h : d < 10) : (digitChar d).toNat = 48 + d := by
  interval_cases d <;> decide

theorem digitChar_isDigit (d : Nat) (h : d < 10) : (digitChar d).isDigit = true := by
  interval_cases d <;> decide

theorem digitChar_props (d : Nat) (h : d < 10) :
    digitChar d ≠ ':' ∧ digitChar d ≠ '.' ∧ digitChar d ≠ ',' ∧ digitChar d ≠ ']' ∧
    pyWs (digitChar d) = false ∧ digitChar d ≠ '+' ∧ digitChar d ≠ '-' := by
  interval_cases d <;> exact (by decide)

theorem natDigitsGo_fuel : ∀ (n f f' : Nat), n < f → n < f' →
    natDigitsGo f n = natDigitsGo f' n := by
  intro n
  induction n using Nat.strong_induction_on with
  | _ n ih =>
    intro f f' hf hf'
    match f, hf with
    | f + 1, _ =>
      match f', hf' with
      | f' + 1, _ =>
        by_cases h10 : n < 10
        · simp [natDigitsGo, h10]
        · have hrec : n / 10 < n := Nat.div_lt_self (by omega) (by omega)
          simp only [natDigitsGo, h10, if_false]
          rw [ih (n / 10) hrec f f' (by omega) (by omega)]

theorem natDigits_eq (n : Nat) :
    natDigits n = if n < 10 then [digitChar n]
      else natDigits (n / 10) ++ [digitChar (n % 10)] := by
  show natDigitsGo (n + 1) n = _
  by_cases h10 : n < 10
  · simp [natDigitsGo, h10]
  · have hrec : n / 10 < n := Nat.div_lt_self (by omega) (by omega)
    simp only [natDigitsGo, h10, if_false]
    rw [natDigitsGo_fuel (n / 10) n (n / 10 + 1) (by omega) (by omega)]
    rfl

theorem natDigits_ne_nil (n : Nat) : natDigits n ≠ [] := by
  rw [natDigits_eq]
  by_cases h : n < 10 <;> simp [h]

theorem allDigits_natDigits (n : Nat) : allDigits (natDigits n) := by
  induction n using Nat.strong_induction_on with
  | _ n ih =>
    intro c hc
    rw [natDigits_eq] at hc
    by_cases h10 : n < 10
    · rw [if_pos h10] at hc
      rcases List.mem_cons.mp hc with rfl | hc
      · exact ⟨n, h10, rfl⟩
      · simp at hc
    · rw [if_neg h10] at hc
      rcases List.mem_append.mp hc with hc | hc
      · exact ih (n / 10) (Nat.div_lt_self (by omega) (by omega)) c hc
      · rcases List.mem_cons.mp hc with rfl | hc
        · exact ⟨n % 10, Nat.mod_lt n (by omega), rfl⟩
        · simp at hc

theorem allDigits_append {A B : Str} (hA : allDigits A) (hB : allDigits B) :
    allDigits (A ++ B) := by
  intro c hc
  rcases List.mem_append.mp hc with hc | hc
  · exact hA c hc
  · exact hB c hc

theorem allDigits_replicate_zero (k : Nat) : allDigits (List.replicate k '0') := by
  intro c hc
  rw [List.eq_of_mem_replicate hc]
  exact ⟨0, by omega, rfl⟩

theorem allDigits_leftPad (w n : Nat) : allDigits (leftPad w '0' (natDigits n)) :=
  allDigits_append (allDigits_replicate_zero _) (allDigits_natDigits n)

theorem allDigits_pair (a b : Nat) (ha : a < 10) (hb : b < 10) :
    allDigits [digitChar a, digitChar b] := by
  intro c hc
  rcases List.mem_cons.mp hc with rfl | hc
  · exact ⟨a, ha, rfl⟩
  rcases List.mem_cons.mp hc with rfl | hc
  · exact ⟨b, hb, rfl⟩
  simp at hc

theorem not_mem_of_allDigits {l : Str} (h : allDigits l) {c : Char}
    (hc : ∀ d, d < 10 → digitChar d ≠ c) : c ∉ l := by
  intro hm
  obtain ⟨d, hd, rfl⟩ := h _ hm
  exact hc d hd rfl

theorem colon_not_mem {l : Str} (h : allDigits l) : ':' ∉ l :=
  not_mem_of_allDigits h (fun d hd => (digitChar_props d hd).1)

theorem dot_not_mem {l : Str} (h : allDigits l) : '.' ∉ l :=
  not_mem_of_allDigits h (fun d hd => (digitChar_props d hd).2.1)

theorem comma_not_mem {l : Str} (h : allDigits l) : ',' ∉ l :=
  not_mem_of_allDigits h (fun d hd => (digitChar_props d hd).2.2.1)

theorem rbracket_not_mem {l : Str} (h : allDigits l) : ']' ∉ l :=
  not_mem_of_allDigits h (fun d hd => (digitChar_props d hd).2.2.2.1)

theorem digitsToNat_append_last (xs : Str) (c : Char) :
    digitsToNat (xs ++ [c]) = 10 * digitsToNat xs + (c.toNat - 48) := by
  simp [digitsToNat, List.foldl_append]

theorem digitsToNat_replicate_zero_append (k : Nat) (ds : Str) :
    digitsToNat (List.replicate k '0' ++ ds) = digitsToNat ds := by
  induction k with
  | zero => rfl
  | succ k ih =>
    show digitsToNat ('0' :: (List.replicate k '0' ++ ds)) = _
    simp only [digitsToNat, List.foldl_cons]
    exact ih

theorem digitsToNat_natDigits (n : Nat) : digitsToNat (natDigits n) = n := by
  induction n using Nat.strong_induction_on with
  | _ n ih =>
    rw [natDigits_eq]
    by_cases h10 : n < 10
    · rw [if_pos h10]
      show digitsToNat ([] ++ [digitChar n]) = n
      rw [digitsToNat_append_last, digitChar_toNat n h10]
      simp [digitsToNat]
    · rw [if_neg h10, digitsToNat_append_last,
        ih (n / 10) (Nat.div_lt_self (by omega) (by omega)),
        digitChar_toNat (n % 10) (Nat.mod_lt n (by omega))]
      omega

theorem pyStrip_of_no_ws (s : Str) (h : ∀ c ∈ s, pyWs c = false) : pyStrip s = s := by
  have h1 : ∀ (l : Str), (∀ c ∈ l, pyWs c = false) → l.dropWhile pyWs = l := by
    intro l hl
    cases l with
    | nil => rfl
    | cons a l => simp [List.dropWhile_cons, hl a (by simp)]
  unfold pyStrip
  rw [h1 s h, h1 s.reverse (fun c hc => h c (List.mem_reverse.mp hc)), List.reverse_reverse]

theorem allDigits_no_ws {l : Str} (h : allDigits l) : ∀ c ∈ l, pyWs c = false := by
  intro c hc
  obtain ⟨d, hd, rfl⟩ := h _ hc
  exact (digitChar_props d hd).2.2.2.2.1

theorem isDigitStr_of_allDigits {l : Str} (hne : l ≠ []) (h : allDigits l) :
    isDigitStr l = true := by
  unfold isDigitStr
  cases l with
  | nil => exact absurd rfl hne
  | cons a as =>
    simp only [List.isEmpty_cons, Bool.not_false, Bool.true_and, List.all_eq_true]
    intro c hc
    obtain ⟨d, hd, rfl⟩ := h _ hc
    exact digitChar_isDigit d hd

theorem pyInt?_allDigits (s : Str) (hne : s ≠ []) (h : allDigits s) :
    pyInt? s = some ((digitsToNat s : Nat) : Int) := by
  have hdig := isDigitStr_of_allDigits hne h
  unfold pyInt?
  rw [pyStrip_of_no_ws s (allDigits_no_ws h)]
  cases s with
  | nil => exact absurd rfl hne
  | cons a as =>
    obtain ⟨d, hd, rfl⟩ := h a (by simp)
    have hp := digitChar_props d hd
    simp only [pyIntCore]
    rw [if_neg hp.2.2.2.2.2.1, if_neg hp.2.2.2.2.2.2, if_pos hdig]

theorem splitCh_not_mem (sep : Char) : ∀ (s : Str), sep ∉ s → splitCh sep s = [s] := by
  intro s
  induction s with
  | nil => intro h; rfl
  | cons c cs ih =>
    intro h
    have hc : ¬ c = sep := fun hcc => h (by simp [hcc])
    have hcs : sep ∉ cs := fun hm => h (by simp [hm])
    simp only [splitCh, hc, if_false, ih hcs]

theorem splitCh_append (sep : Char) : ∀ (xs : Str), sep ∉ xs → ∀ (ys : Str),
    splitCh sep (xs ++ sep :: ys) = xs :: splitCh sep ys := by
  intro xs
  induction xs with
  | nil =>
    intro _ ys
    simp [splitCh]
  | cons c cs ih =>
    intro h ys
    have hc : ¬ c = sep := fun hcc => h (by simp [hcc])
    have hcs : sep ∉ cs := fun hm => h (by simp [hm])
    show splitCh sep (c :: (cs ++ sep :: ys)) = (c :: cs) :: splitCh sep ys
    simp only [splitCh, hc, if_false, ih hcs ys]

theorem pyFindCh_append (c : Char) : ∀ (xs : Str), c ∉ xs → ∀ (ys : Str),
    pyFindCh c (xs ++ c :: ys) = some xs.length := by
  intro xs
  induction xs with
  | nil =>
    intro _ ys
    simp [pyFindCh]
  | cons x xr ih =>
    intro h ys
    have hx : ¬ x = c := fun hcc => h (by simp [hcc])
    have hxr : c ∉ xr := fun hm => h (by simp [hm])
    show pyFindCh c (x :: (xr ++ c :: ys)) = some (xr.length + 1)
    simp only [pyFindCh, hx, if_false, ih hxr ys]
    rfl

theorem natDigits_lt10 (n : Nat) (h : n < 10) : natDigits n = [digitChar n] := by
  rw [natDigits_eq, if_pos h]

theorem natDigits_two (a b : Nat) (h1 : 1 ≤ a) (ha : a < 10) (hb : b < 10) :
    natDigits (10 * a + b) = [digitChar a, digitChar b] := by
  rw [natDigits_eq, if_neg (by omega)]
  have hdiv : (10 * a + b) / 10 = a := by
    rw [Nat.mul_add_div (by omega), Nat.div_eq_of_lt hb]
    omega
  have hmod : (10 * a + b) % 10 = b := by
    rw [Nat.mul_add_mod, Nat.mod_eq_of_lt hb]
  rw [hdiv, hmod, natDigits_lt10 a ha]
  rfl

theorem pad2_two_digits (a b : Nat) (ha : a < 10) (hb : b < 10) :
    leftPad 2 '0' (natDigits (10 * a + b)) = [digitChar a, digitChar b] := by
  by_cases h1 : 1 ≤ a
  · rw [natDigits_two a b h1 ha hb]
    rfl
  · have ha0 : a = 0 := by omega
    subst ha0
    simp only [Nat.mul_zero, Nat.zero_add]
    rw [natDigits_lt10 b hb]
    rfl

theorem pad3_hundreds (a b : Nat) (ha : a < 10) (hb : b < 10) :
    leftPad 3 '0' (natDigits (100 * a + 10 * b)) = [digitChar a, digitChar b, '0'] := by
  by_cases h1 : 1 ≤ a
  · have he : 100 * a + 10 * b = 10 * (10 * a + b) + 0 := by ring
    rw [he, natDigits_eq, if_neg (by omega)]
    have hdiv : (10 * (10 * a + b) + 0) / 10 = 10 * a + b := by
      rw [Nat.mul_add_div (by omega)]
      omega
    have hmod : (10 * (10 * a + b) + 0) % 10 = 0 := by
      rw [Nat.mul_add_mod]
    rw [hdiv, hmod, natDigits_two a b h1 ha hb]
    rfl
  · have ha0 : a = 0 := by omega
    subst ha0
    simp only [Nat.mul_zero, Nat.zero_add]
    by_cases hb1 : 1 ≤ b
    · have he : 10 * b = 10 * b + 0 := by ring
      rw [he, natDigits_eq, if_neg (by omega)]
      have hdiv : (10 * b + 0) / 10 = b := by
        rw [Nat.mul_add_div (by omega)]
        omega
      have hmod : (10 * b + 0) % 10 = 0 := by rw [Nat.mul_add_mod]
      rw [hdiv, hmod, natDigits_lt10 b hb]
      rfl
    · have hb0 : b = 0 := by omega
      subst hb0
      rfl

theorem pyFmtPadInt_ofNat (w n : Nat) :
    pyFmtPadInt w ((n : Nat) : Int) = leftPad w '0' (natDigits n) := by
  unfold pyFmtPadInt
  rw [if_neg (by omega), Int.toNat_natCast]

/-- A canonical `HH:MM:SS,mmm` time string built from its nine digits. -/
def mkCanon (h1 h0 m1 m0 s1 s0 d1 d2 d3 : Nat) : Str :=
  [digitChar h1, digitChar h0, ':', digitChar m1, digitChar m0, ':',
   digitChar s1, digitChar s0, ',', digitChar d1, digitChar d2, digitChar d3]

/-- `toCanonical ∘ toLyricTag`: format the canonical time as a lyric tag,
extract the tag content the way `parse_lrcx` does, and parse it back. -/
def roundTrip (t : Str) : Str := parse_time_lrc (tagOf (format_time_lrc t))

theorem digitsToNat_pair (a b : Nat) (ha : a < 10) (hb : b < 10) :
    digitsToNat [digitChar a, digitChar b] = 10 * a + b := by
  show digitsToNat (([] ++ [digitChar a]) ++ [digitChar b]) = _
  rw [digitsToNat_append_last, digitsToNat_append_last,
    digitChar_toNat a ha, digitChar_toNat b hb]
  show 10 * (10 * digitsToNat [] + (48 + a - 48)) + (48 + b - 48) = 10 * a + b
  have h0 : digitsToNat [] = 0 := rfl
  rw [h0]
  omega

theorem leftPad_ne_nil (w : Nat) (c : Char) (s : Str) (h : s ≠ []) :
    leftPad w c s ≠ [] := by
  unfold leftPad
  intro hc
  rcases List.append_eq_nil.mp hc with ⟨_, h2⟩
  exact h h2

theorem allDigits_singleton_zero : allDigits ['0'] := by
  intro c hc
  rcases List.mem_cons.mp hc with rfl | hc
  · exact ⟨0, by omega, rfl⟩
  · simp at hc

theorem tagOf_bracketed (content : Str) (h : ']' ∉ content) :
    tagOf ('[' :: content ++ [']']) = content := by
  unfold tagOf
  have hnm : ']' ∉ '[' :: content := by
    intro hm
    rcases List.mem_cons.mp hm with h1 | h1
    · exact absurd h1 (by decide)
    · exact h h1
  have hfind : pyFindCh ']' ('[' :: content ++ [']']) = some (content.length + 1) := by
    have := pyFindCh_append ']' ('[' :: content) hnm []
    simpa using this
  rw [hfind]
  show (('[' :: (content ++ [']'])).drop 1).take (content.length + 1 - 1) = content
  simp only [List.drop_succ_cons, List.drop_zero, Nat.add_sub_cancel]
  exact List.take_left content [']']

theorem parse_time_lrc_eval (A B C : Str) (hA : allDigits A) (hB : allDigits B)
    (hC : allDigits C) (hAne : A ≠ []) (hBne : B ≠ []) :
    parse_time_lrc (A ++ ':' :: (B ++ '.' :: C)) =
      '0' :: '0' :: ':' :: leftPad 2 '0' (natDigits (digitsToNat A)) ++ ':' ::
        leftPad 2 '0' (natDigits (digitsToNat B)) ++ ',' ::
        leftPad 3 '0' (natDigits (digitsToNat (C ++ ['0']))) := by
  have hBC : ':' ∉ B ++ '.' :: C := by
    intro hm
    rcases List.mem_append.mp hm with h1 | h1
    · exact colon_not_mem hB h1
    · rcases List.mem_cons.mp h1 with h2 | h2
      · exact absurd h2 (by decide)
      · exact colon_not_mem hC h2
  have e1 : splitCh ':' (A ++ ':' :: (B ++ '.' :: C)) = [A, B ++ '.' :: C] := by
    rw [splitCh_append ':' A (colon_not_mem hA), splitCh_not_mem ':' _ hBC]
  have e2 : splitCh '.' (B ++ '.' :: C) = [B, C] := by
    rw [splitCh_append '.' B (dot_not_mem hB), splitCh_not_mem '.' C (dot_not_mem hC)]
  have e3 := pyInt?_allDigits A hAne hA
  have e4 := pyInt?_allDigits B hBne hB
  have e5 := pyInt?_allDigits (C ++ ['0']) (by simp)
    (allDigits_append hC allDigits_singleton_zero)
  unfold parse_time_lrc
  simp only [e1, e2, e3, e4, e5, pyFmtPadInt_ofNat]

theorem allDigits_triple (a b c : Nat) (ha : a < 10) (hb : b < 10) (hc : c < 10) :
    allDigits [digitChar a, digitChar b, digitChar c] := by
  intro x hx
  rcases List.mem_cons.mp hx with rfl | hx
  · exact ⟨a, ha, rfl⟩
  rcases List.mem_cons.mp hx with rfl | hx
  · exact ⟨b, hb, rfl⟩
  rcases List.mem_cons.mp hx with rfl | hx
  · exact ⟨c, hc, rfl⟩
  simp at hx

theorem format_time_lrc_eval (h1 h0 m1 m0 s1 s0 d1 d2 d3 : Nat)
    (hh1 : h1 < 10) (hh0 : h0 < 10) (hm1 : m1 < 10) (hm0 : m0 < 10)
    (hs1 : s1 < 6) (hs0 : s0 < 10) (hd1 : d1 < 10) (hd2 : d2 < 10) (hd3 : d3 < 10) :
    format_time_lrc (mkCanon h1 h0 m1 m0 s1 s0 d1 d2 d3) =
      '[' :: leftPad 2 '0' (natDigits (60 * (10 * h1 + h0) + (10 * m1 + m0))) ++ ':' ::
        (digitChar s1 :: digitChar s0 :: []) ++ '.' ::
        (digitChar d1 :: digitChar d2 :: []) ++ ([']'] : Str) := by
  have hs60 : 10 * s1 + s0 < 60 := by omega
  have hc3 : ':' ∉ (digitChar s1 :: digitChar s0 :: ',' :: digitChar d1 :: digitChar d2 ::
      digitChar d3 :: []) := by
    intro hm
    simp only [List.mem_cons, List.not_mem_nil, or_false] at hm
    rcases hm with h | h | h | h | h | h
    · exact (digitChar_props s1 (by omega)).1 h.symm
    · exact (digitChar_props s0 hs0).1 h.symm
    · exact absurd h (by decide)
    · exact (digitChar_props d1 hd1).1 h.symm
    · exact (digitChar_props d2 hd2).1 h.symm
    · exact (digitChar_props d3 hd3).1 h.symm
  have e1 : splitCh ':' (mkCanon h1 h0 m1 m0 s1 s0 d1 d2 d3) =
      [[digitChar h1, digitChar h0], [digitChar m1, digitChar m0],
       digitChar s1 :: digitChar s0 :: ',' :: digitChar d1 :: digitChar d2 ::
         digitChar d3 :: []] := by
    rw [show mkCanon h1 h0 m1 m0 s1 s0 d1 d2 d3 =
        [digitChar h1, digitChar h0] ++ ':' :: ([digitChar m1, digitChar m0] ++ ':' ::
          (digitChar s1 :: digitChar s0 :: ',' :: digitChar d1 :: digitChar d2 ::
            digitChar d3 :: [])) from rfl,
      splitCh_append ':' _ (colon_not_mem (allDigits_pair h1 h0 hh1 hh0)),
      splitCh_append ':' _ (colon_not_mem (allDigits_pair m1 m0 hm1 hm0)),
      splitCh_not_mem ':' _ hc3]
  have e2 : splitCh ',' (digitChar s1 :: digitChar s0 :: ',' :: digitChar d1 ::
      digitChar d2 :: digitChar d3 :: []) =
      [[digitChar s1, digitChar s0], [digitChar d1, digitChar d2, digitChar d3]] := by
    rw [show (digitChar s1 :: digitChar s0 :: ',' :: digitChar d1 :: digitChar d2 ::
        digitChar d3 :: []) = [digitChar s1, digitChar s0] ++ ',' ::
        [digitChar d1, digitChar d2, digitChar d3] from rfl,
      splitCh_append ',' _ (comma_not_mem (allDigits_pair s1 s0 (by omega) hs0)),
      splitCh_not_mem ',' _ (comma_not_mem (allDigits_triple d1 d2 d3 hd1 hd2 hd3))]
  have e3 : pyInt? [digitChar h1, digitChar h0] = some ((10 * h1 + h0 : Nat) : Int) := by
    rw [pyInt?_allDigits _ (by simp) (allDigits_pair h1 h0 hh1 hh0),
      digitsToNat_pair h1 h0 hh1 hh0]
  have e4 : pyInt? [digitChar m1, digitChar m0] = some ((10 * m1 + m0 : Nat) : Int) := by
    rw [pyInt?_allDigits _ (by simp) (allDigits_pair m1 m0 hm1 hm0),
      digitsToNat_pair m1 m0 hm1 hm0]
  have e5 : pyInt? [digitChar s1, digitChar s0] = some ((10 * s1 + s0 : Nat) : Int) := by
    rw [pyInt?_allDigits _ (by simp) (allDigits_pair s1 s0 (by omega) hs0),
      digitsToNat_pair s1 s0 (by omega) hs0]
  unfold format_time_lrc
  simp only [e1, e2, e3, e4, e5]
  have htot : ((10 * h1 + h0 : Nat) : Int) * 3600 + ((10 * m1 + m0 : Nat) : Int) * 60 +
      ((10 * s1 + s0 : Nat) : Int) =
      ((3600 * (10 * h1 + h0) + 60 * (10 * m1 + m0) + (10 * s1 + s0) : Nat) : Int) := by
    push_cast
    ring
  rw [htot]
  have hfd : (((3600 * (10 * h1 + h0) + 60 * (10 * m1 + m0) + (10 * s1 + s0) : Nat) :
      Int)).fdiv (60 : Int) =
      (((3600 * (10 * h1 + h0) + 60 * (10 * m1 + m0) + (10 * s1 + s0)) / 60 : Nat) :
        Int) := by
    rw [Int.fdiv_eq_tdiv (by positivity) (by norm_num)]
    exact (Int.ofNat_tdiv _ 60).symm
  have hem : (((3600 * (10 * h1 + h0) + 60 * (10 * m1 + m0) + (10 * s1 + s0) : Nat) :
      Int)).emod (60 : Int) =
      (((3600 * (10 * h1 + h0) + 60 * (10 * m1 + m0) + (10 * s1 + s0)) % 60 : Nat) :
        Int) := by
    show ((3600 * (10 * h1 + h0) + 60 * (10 * m1 + m0) + (10 * s1 + s0) : Nat) : Int) %
      (60 : Int) = _
    exact (Int.ofNat_emod _ 60).symm
  rw [hfd, hem]
  have hdv : (3600 * (10 * h1 + h0) + 60 * (10 * m1 + m0) + (10 * s1 + s0)) / 60 =
      60 * (10 * h1 + h0) + (10 * m1 + m0) := by
    rw [show 3600 * (10 * h1 + h0) + 60 * (10 * m1 + m0) + (10 * s1 + s0) =
      60 * (60 * (10 * h1 + h0) + (10 * m1 + m0)) + (10 * s1 + s0) from by ring,
      Nat.mul_add_div (by omega), Nat.div_eq_of_lt hs60]
    omega
  have hmd : (3600 * (10 * h1 + h0) + 60 * (10 * m1 + m0) + (10 * s1 + s0)) % 60 =
      10 * s1 + s0 := by
    rw [show 3600 * (10 * h1 + h0) + 60 * (10 * m1 + m0) + (10 * s1 + s0) =
      60 * (60 * (10 * h1 + h0) + (10 * m1 + m0)) + (10 * s1 + s0) from by ring,
      Nat.mul_add_mod, Nat.mod_eq_of_lt hs60]
  rw [hdv, hmd, pyFmtPadInt_ofNat, pyFmtPadInt_ofNat, pad2_two_digits s1 s0 (by omega) hs0]
  rfl

theorem digitsToNat_leftPad (w n : Nat) :
    digitsToNat (leftPad w '0' (natDigits n)) = n := by
  unfold leftPad
  rw [digitsToNat_replicate_zero_append, digitsToNat_natDigits]

theorem msDigits_value (d1 d2 : Nat) (hd1 : d1 < 10) (hd2 : d2 < 10) :
    digitsToNat ([digitChar d1, digitChar d2] ++ ['0']) = 100 * d1 + 10 * d2 := by
  rw [show (['0'] : Str) = [digitChar 0] from rfl, digitsToNat_append_last,
    digitsToNat_pair d1 d2 hd1 hd2, digitChar_toNat 0 (by omega)]
  omega

/-- Claim C5, amended: converting a canonical time to the lyric tag and
back yields hours `00`, the minutes *folded together with the hours*
(`60·h + m` in the minutes field), the seconds unchanged, and the first
two millisecond digits with the third becoming `0`; when the hour field
is `00` the minutes and seconds fields are preserved verbatim, exactly as
the claim states (second conjunct).  The third conjunct is the
lyric-to-canonical direction alone: the milliseconds of the output are
the tag's two-digit fraction right-padded with one zero.  For a non-zero
hour field the minutes field is not preserved (see the counterexample),
because the lyric tag has no hour field. -/
theorem claim_C5 (h1 h0 m1 m0 s1 s0 d1 d2 d3 : Nat)
    (hh1 : h1 < 10) (hh0 : h0 < 10) (hm1 : m1 < 10) (hm0 : m0 < 10)
    (hs1 : s1 < 6) (hs0 : s0 < 10) (hd1 : d1 < 10) (hd2 : d2 < 10) (hd3 : d3 < 10) :
    roundTrip (mkCanon h1 h0 m1 m0 s1 s0 d1 d2 d3) =
      '0' :: '0' :: ':' ::
        leftPad 2 '0' (natDigits (60 * (10 * h1 + h0) + (10 * m1 + m0))) ++ ':' ::
        digitChar s1 :: digitChar s0 :: ',' ::
        digitChar d1 :: digitChar d2 :: '0' :: [] ∧
    (h1 = 0 → h0 = 0 →
      roundTrip (mkCanon h1 h0 m1 m0 s1 s0 d1 d2 d3) =
        mkCanon 0 0 m1 m0 s1 s0 d1 d2 0) ∧
    parse_time_lrc (digitChar m1 :: digitChar m0 :: ':' :: digitChar s1 :: digitChar s0 ::
        '.' :: digitChar d1 :: digitChar d2 :: []) =
      mkCanon 0 0 m1 m0 s1 s0 d1 d2 0 := by
  have hpadA : allDigits (leftPad 2 '0'
      (natDigits (60 * (10 * h1 + h0) + (10 * m1 + m0)))) := allDigits_leftPad _ _
  have main : roundTrip (mkCanon h1 h0 m1 m0 s1 s0 d1 d2 d3) =
      '0' :: '0' :: ':' ::
        leftPad 2 '0' (natDigits (60 * (10 * h1 + h0) + (10 * m1 + m0))) ++ ':' ::
        digitChar s1 :: digitChar s0 :: ',' ::
        digitChar d1 :: digitChar d2 :: '0' :: [] := by
    unfold roundTrip
    rw [format_time_lrc_eval h1 h0 m1 m0 s1 s0 d1 d2 d3 hh1 hh0 hm1 hm0 hs1 hs0 hd1 hd2 hd3]
    rw [show ('[' :: leftPad 2 '0' (natDigits (60 * (10 * h1 + h0) + (10 * m1 + m0))) ++
        ':' :: (digitChar s1 :: digitChar s0 :: []) ++ '.' ::
        (digitChar d1 :: digitChar d2 :: []) ++ ([']'] : Str)) =
      '[' :: (leftPad 2 '0' (natDigits (60 * (10 * h1 + h0) + (10 * m1 + m0))) ++
        ':' :: ((digitChar s1 :: digitChar s0 :: []) ++ '.' ::
          (digitChar d1 :: digitChar d2 :: []))) ++ [']'] from by
        simp [List.append_assoc]]
    rw [tagOf_bracketed _ (by
      intro hm
      rcases List.mem_append.mp hm with hmm | hmm
      · exact rbracket_not_mem hpadA hmm
      · rcases List.mem_cons.mp hmm with hx | hmm
        · exact absurd hx (by decide)
        · rcases List.mem_append.mp hmm with hmm | hmm
          · exact rbracket_not_mem (allDigits_pair s1 s0 (by omega) hs0) hmm
          · rcases List.mem_cons.mp hmm with hx | hmm
            · exact absurd hx (by decide)
            · exact rbracket_not_mem (allDigits_pair d1 d2 hd1 hd2) hmm)]
    rw [parse_time_lrc_eval _ _ _ hpadA (allDigits_pair s1 s0 (by omega) hs0)
      (allDigits_pair d1 d2 hd1 hd2)
      (leftPad_ne_nil _ _ _ (natDigits_ne_nil _)) (by simp)]
    rw [digitsToNat_leftPad, digitsToNat_pair s1 s0 (by omega) hs0,
      pad2_two_digits s1 s0 (by omega) hs0, msDigits_value d1 d2 hd1 hd2,
      pad3_hundreds d1 d2 hd1 hd2]
    simp [List.append_assoc]
  refine ⟨main, ?_, ?_⟩
  · intro e1 e0
    subst e1
    subst e0
    rw [main]
    rw [show 60 * (10 * 0 + 0) + (10 * m1 + m0) = 10 * m1 + m0 from by ring,
      pad2_two_digits m1 m0 hm1 hm0]
    rfl
  · rw [show (digitChar m1 :: digitChar m0 :: ':' :: digitChar s1 :: digitChar s0 ::
        '.' :: digitChar d1 :: digitChar d2 :: []) =
      [digitChar m1, digitChar m0] ++ ':' :: ([digitChar s1, digitChar s0] ++ '.' ::
        [digitChar d1, digitChar d2]) from rfl]
    rw [parse_time_lrc_eval _ _ _ (allDigits_pair m1 m0 hm1 hm0)
      (allDigits_pair s1 s0 (by omega) hs0) (allDigits_pair d1 d2 hd1 hd2)
      (by simp) (by simp)]
    rw [digitsToNat_pair m1 m0 hm1 hm0, pad2_two_digits m1 m0 hm1 hm0,
      digitsToNat_pair s1 s0 (by omega) hs0, pad2_two_digits s1 s0 (by omega) hs0,
      msDigits_value d1 d2 hd1 hd2, pad3_hundreds d1 d2 hd1 hd2]
    rfl

/-- Witness for C5 at the spec's example: `"00:01:05,345"` round-trips to
`"00:01:05,340"`. -/
theorem claim_C5_witness :
    roundTrip ("00:01:05,345".data) = "00:01:05,340".data := by
  have h := (claim_C5 0 0 0 1 0 5 3 4 5 (by omega) (by omega) (by omega) (by omega)
    (by omega) (by omega) (by omega) (by omega) (by omega)).2.1 rfl rfl
  have e1 : mkCanon 0 0 0 1 0 5 3 4 5 = "00:01:05,345".data := by decide
  have e2 : mkCanon 0 0 0 1 0 5 3 4 0 = "00:01:05,340".data := by decide
  rw [e1, e2] at h
  exact h

/-- Counterexample for C5 as universally stated: the canonical time
`"01:02:03,456"` (one hour) round-trips to `"00:62:03,450"` — the hour is
folded into the minutes field, so the minutes field `02` is NOT preserved
(neither candidate reading `"01:02:03,450"`/`"00:02:03,450"` matches). -/
theorem claim_C5_cex :
    roundTrip ("01:02:03,456".data) = "00:62:03,450".data ∧
    ("00:62:03,450".data : Str) ≠ "01:02:03,450".data ∧
    ("00:62:03,450".data : Str) ≠ "00:02:03,450".data := by
  refine ⟨by decide, by decide, by decide⟩
